import Mathlib

/-!
Verification of the tunnel wire-protocol codec (generated gogo-protobuf code
for tunnel.proto, package api) and of the stream state machine described in
the design document.

Shallow embedding conventions:
- Go byte slices and strings are modelled as `List Nat`, each element one byte.
- The Go unmarshalers walk a buffer `dAtA` with an integer index `iNdEx`;
  the embedding keeps the same buffer-plus-index style, reading single bytes
  through `List.get?`-like lookups.  An out-of-bounds read (which would be a
  runtime panic in Go) is modelled by the distinguished error `DErr.oob`,
  proved unreachable.
- Go `uint64` arithmetic is modelled as `Nat` arithmetic reduced `% 2 ^ 64`
  where the Go code can overflow; `int` (64-bit signed) negativity checks
  such as `msglen < 0` become `2 ^ 63 ≤ msglen` on the matching bit pattern.
- The back-to-front sized-buffer writers (`MarshalToSizedBuffer`) are
  modelled by the list of bytes they deposit, in final buffer order.
-/

namespace Tunnel

/-- Decode failure outcomes of the generated unmarshalers: `eof` is
io.ErrUnexpectedEOF, `intOverflow` is ErrIntOverflowTunnel, `invalidLength`
is ErrInvalidLengthTunnel, `endGroup` is ErrUnexpectedEndOfGroupTunnel, and
the remaining constructors stand for the distinct fmt.Errorf cases.  `oob`
models a Go index-out-of-range panic and never occurs. -/
inductive DErr where
  | eof
  | intOverflow
  | invalidLength
  | endGroup
  | endGroupForNonGroup
  | illegalTag
  | wrongWireType
  | illegalWireType
  | oob
  deriving DecidableEq, Repr

/-- Addr message: Network (field 1, string), Address (field 2, string),
plus the XXX_unrecognized byte buffer kept by gogo-protobuf. -/
structure Addr where
  Network : List Nat
  Address : List Nat
  XXX_unrecognized : List Nat
  deriving DecidableEq, Repr

/-- DialRequest message: ServerID (field 1, string), ConnType (field 2,
string), To (field 3, message Addr, a nil-able pointer in Go hence Option),
plus XXX_unrecognized. -/
structure DialRequest where
  ServerID : List Nat
  ConnType : List Nat
  To : Option Addr
  XXX_unrecognized : List Nat
  deriving DecidableEq, Repr

/-- Data message: Bytes (field 1, bytes) plus XXX_unrecognized. -/
structure Data where
  Bytes : List Nat
  XXX_unrecognized : List Nat
  deriving DecidableEq, Repr

/-- The oneof Message of Frame: wrappers Frame_DialRequest (field 1) and
Frame_Data (field 2), each holding a nil-able pointer in Go. -/
inductive Frame_Message where
  | dialRequest (d : Option DialRequest)
  | data (d : Option Data)
  deriving DecidableEq, Repr

/-- Frame message: the oneof Message (nil-able in Go hence Option) plus
XXX_unrecognized. -/
structure Frame where
  Message : Option Frame_Message
  XXX_unrecognized : List Nat
  deriving DecidableEq, Repr

/-- sovTunnel, `(math_bits.Len64(x|1) + 6) / 7`.  On the Go uint64 domain
math_bits.Len64 is the number of significant bits, which `Nat.size`
extends to all of Nat. -/
def sovTunnel (x : Nat) : Nat :=
  (Nat.size (x ||| 1) + 6) / 7

/-- encodeVarintTunnel: the bytes the Go loop writes, in buffer order
(lowest 7-bit group first, continuation bit 0x80 on all but the last). -/
def encodeVarintTunnel (v : Nat) : List Nat :=
  if _h : v < 128 then [v]
  else (v % 128 + 128) :: encodeVarintTunnel (v >>> 7)
termination_by v
decreasing_by
  simp only [Nat.shiftRight_eq_div_pow]
  exact Nat.div_lt_self (by omega) (by norm_num)

/-- Helper naming the byte layout of one length-delimited field as the
sized-buffer writers emit it: tag byte, varint length, then the content. -/
def lenField (tag : Nat) (content : List Nat) : List Nat :=
  tag :: (encodeVarintTunnel content.length ++ content)

/-- Addr.Size. -/
def Addr.Size (m : Addr) : Nat :=
  (if 0 < m.Network.length then
    1 + m.Network.length + sovTunnel m.Network.length else 0) +
  (if 0 < m.Address.length then
    1 + m.Address.length + sovTunnel m.Address.length else 0) +
  m.XXX_unrecognized.length

/-- DialRequest.Size. -/
def DialRequest.Size (m : DialRequest) : Nat :=
  (if 0 < m.ServerID.length then
    1 + m.ServerID.length + sovTunnel m.ServerID.length else 0) +
  (if 0 < m.ConnType.length then
    1 + m.ConnType.length + sovTunnel m.ConnType.length else 0) +
  (match m.To with
   | some a => 1 + a.Size + sovTunnel a.Size
   | none => 0) +
  m.XXX_unrecognized.length

/-- Data.Size. -/
def Data.Size (m : Data) : Nat :=
  (if 0 < m.Bytes.length then
    1 + m.Bytes.length + sovTunnel m.Bytes.length else 0) +
  m.XXX_unrecognized.length

/-- Frame_DialRequest.Size and Frame_Data.Size, the oneof wrapper sizes
(zero when the wrapped pointer is nil). -/
def Frame_Message.size : Frame_Message → Nat
  | .dialRequest d =>
    match d with
    | some dr => 1 + dr.Size + sovTunnel dr.Size
    | none => 0
  | .data d =>
    match d with
    | some dd => 1 + dd.Size + sovTunnel dd.Size
    | none => 0

/-- Frame.Size. -/
def Frame.Size (m : Frame) : Nat :=
  (match m.Message with
   | some msg => msg.size
   | none => 0) +
  m.XXX_unrecognized.length

/-- Addr.MarshalToSizedBuffer: writes (back to front) XXX_unrecognized,
then Address (tag 0x12) if non-empty, then Network (tag 0xa) if non-empty.
Modelled as the emitted byte suffix in final order; the Go error return is
structurally always nil for this leaf message. -/
def Addr.MarshalToSizedBuffer (m : Addr) : Except DErr (List Nat) :=
  .ok ((if 0 < m.Network.length then lenField 0xa m.Network else []) ++
       (if 0 < m.Address.length then lenField 0x12 m.Address else []) ++
       m.XXX_unrecognized)

/-- DialRequest.MarshalToSizedBuffer: writes XXX_unrecognized, then To
(tag 0x1a, submessage bytes prefixed with their varint count) if non-nil,
then ConnType (tag 0x12) and ServerID (tag 0xa) if non-empty, propagating
any error from the submessage writer. -/
def DialRequest.MarshalToSizedBuffer (m : DialRequest) : Except DErr (List Nat) :=
  match m.To with
  | some a =>
    match a.MarshalToSizedBuffer with
    | .error e => .error e
    | .ok w =>
      .ok ((if 0 < m.ServerID.length then lenField 0xa m.ServerID else []) ++
           (if 0 < m.ConnType.length then lenField 0x12 m.ConnType else []) ++
           lenField 0x1a w ++
           m.XXX_unrecognized)
  | none =>
    .ok ((if 0 < m.ServerID.length then lenField 0xa m.ServerID else []) ++
         (if 0 < m.ConnType.length then lenField 0x12 m.ConnType else []) ++
         m.XXX_unrecognized)

/-- Data.MarshalToSizedBuffer: XXX_unrecognized, then Bytes (tag 0xa) if
non-empty. -/
def Data.MarshalToSizedBuffer (m : Data) : Except DErr (List Nat) :=
  .ok ((if 0 < m.Bytes.length then lenField 0xa m.Bytes else []) ++
       m.XXX_unrecognized)

/-- Frame_DialRequest.MarshalToSizedBuffer and
Frame_Data.MarshalToSizedBuffer: tag 0xa resp. 0x12 followed by the varint
byte count and the submessage bytes, nothing when the wrapped pointer is
nil. -/
def Frame_Message.marshalTo : Frame_Message → Except DErr (List Nat)
  | .dialRequest d =>
    match d with
    | some dr =>
      match dr.MarshalToSizedBuffer with
      | .error e => .error e
      | .ok w => .ok (lenField 0xa w)
    | none => .ok []
  | .data d =>
    match d with
    | some dd =>
      match dd.MarshalToSizedBuffer with
      | .error e => .error e
      | .ok w => .ok (lenField 0x12 w)
    | none => .ok []

/-- Frame.MarshalToSizedBuffer: writes XXX_unrecognized, then reserves a
slot of m.Message.Size() bytes and lets the oneof wrapper write into the
tail of that slot (the slot padding is empty whenever size agrees with the
bytes written, which marshal_length proves). -/
def Frame.MarshalToSizedBuffer (m : Frame) : Except DErr (List Nat) :=
  match m.Message with
  | some msg =>
    match msg.marshalTo with
    | .error e => .error e
    | .ok w =>
      .ok ((List.replicate (msg.size - w.length) 0 ++ w) ++ m.XXX_unrecognized)
  | none => .ok m.XXX_unrecognized

/-- Frame.Marshal: allocates a buffer of m.Size() bytes, fills its tail via
MarshalToSizedBuffer, and returns the first n bytes where n is the count
written. -/
def Frame.Marshal (m : Frame) : Except DErr (List Nat) :=
  match m.MarshalToSizedBuffer with
  | .error e => .error e
  | .ok w => .ok (List.take w.length (List.replicate (m.Size - w.length) 0 ++ w))

/-- DialRequest.Marshal, same scheme as Frame.Marshal. -/
def DialRequest.Marshal (m : DialRequest) : Except DErr (List Nat) :=
  match m.MarshalToSizedBuffer with
  | .error e => .error e
  | .ok w => .ok (List.take w.length (List.replicate (m.Size - w.length) 0 ++ w))

/-- Addr.Marshal, same scheme as Frame.Marshal. -/
def Addr.Marshal (m : Addr) : Except DErr (List Nat) :=
  match m.MarshalToSizedBuffer with
  | .error e => .error e
  | .ok w => .ok (List.take w.length (List.replicate (m.Size - w.length) 0 ++ w))

/-- Data.Marshal, same scheme as Frame.Marshal. -/
def Data.Marshal (m : Data) : Except DErr (List Nat) :=
  match m.MarshalToSizedBuffer with
  | .error e => .error e
  | .ok w => .ok (List.take w.length (List.replicate (m.Size - w.length) 0 ++ w))

/-! Basic facts about sovTunnel and encodeVarintTunnel. -/

theorem lor_one_pos (v : Nat) : 0 < v ||| 1 := by
  rcases Nat.eq_zero_or_pos (v ||| 1) with h | h
  · have h0 : (v ||| 1).testBit 0 = false := by simp [h]
    rw [Nat.testBit_lor] at h0
    simp at h0
  · exact h

theorem and_lor_self (a b : Nat) : a &&& (a ||| b) = a := by
  apply Nat.eq_of_testBit_eq
  intro i
  rw [Nat.testBit_and, Nat.testBit_lor]
  cases a.testBit i <;> simp

theorem le_lor_left (a b : Nat) : a ≤ a ||| b := by
  calc a = a &&& (a ||| b) := (and_lor_self a b).symm
    _ ≤ a ||| b := Nat.and_le_right

theorem size_lor_one (v : Nat) (hv : 0 < v) : Nat.size (v ||| 1) = Nat.size v := by
  apply le_antisymm
  · apply Nat.size_le.2
    apply Nat.or_lt_two_pow (Nat.lt_size_self v)
    have h1 : 0 < Nat.size v := Nat.size_pos.2 hv
    calc (1:Nat) < 2 ^ 1 := by norm_num
      _ ≤ 2 ^ Nat.size v := Nat.pow_le_pow_right (by norm_num) h1
  · exact Nat.size_le_size (le_lor_left v 1)

theorem sov_pos (v : Nat) : 1 ≤ sovTunnel v := by
  have h1 : 0 < Nat.size (v ||| 1) := Nat.size_pos.2 (lor_one_pos v)
  unfold sovTunnel
  omega

theorem sov_small {v : Nat} (h : v < 128) : sovTunnel v = 1 := by
  have h7 : Nat.size (v ||| 1) ≤ 7 := by
    apply Nat.size_le.2
    exact Nat.or_lt_two_pow (by norm_num at h ⊢; omega) (by norm_num)
  have h1 : 0 < Nat.size (v ||| 1) := Nat.size_pos.2 (lor_one_pos v)
  unfold sovTunnel
  omega

theorem size_shiftRight_seven {v : Nat} (h : 128 ≤ v) :
    Nat.size (v >>> 7) = Nat.size v - 7 := by
  have h8 : 7 < Nat.size v := Nat.lt_size.2 (by norm_num; omega)
  obtain ⟨k, hk⟩ : ∃ k, Nat.size v = k + 8 := ⟨Nat.size v - 8, by omega⟩
  rw [hk]
  have hlt : v < 2 ^ (k + 8) := hk ▸ Nat.lt_size_self v
  have hge : 2 ^ (k + 7) ≤ v := Nat.lt_size.1 (by omega)
  rw [Nat.shiftRight_eq_div_pow]
  apply le_antisymm
  · apply Nat.size_le.2
    rw [Nat.div_lt_iff_lt_mul (by positivity)]
    calc v < 2 ^ (k + 8) := hlt
      _ = 2 ^ (k + 1) * 2 ^ 7 := by ring
    -- goal closed
  · show k + 1 ≤ Nat.size (v / 2 ^ 7)
    apply Nat.lt_size.2
    rw [Nat.le_div_iff_mul_le (by positivity)]
    calc 2 ^ k * 2 ^ 7 = 2 ^ (k + 7) := by ring
      _ ≤ v := hge

theorem sov_rec {v : Nat} (h : 128 ≤ v) :
    sovTunnel v = sovTunnel (v >>> 7) + 1 := by
  have hv : 0 < v := by omega
  have hv7 : 0 < v >>> 7 := by
    rw [Nat.shiftRight_eq_div_pow]
    apply Nat.div_pos (by norm_num; omega) (by norm_num)
  unfold sovTunnel
  rw [size_lor_one v hv, size_lor_one _ hv7, size_shiftRight_seven h]
  have h8 : 7 < Nat.size v := Nat.lt_size.2 (by norm_num; omega)
  omega

theorem sov_le_nine {v : Nat} (h : v < 2 ^ 63) : sovTunnel v ≤ 9 := by
  have h63 : Nat.size (v ||| 1) ≤ 63 := by
    apply Nat.size_le.2
    exact Nat.or_lt_two_pow h (by norm_num)
  unfold sovTunnel
  omega

theorem encodeVarint_small {v : Nat} (h : v < 128) : encodeVarintTunnel v = [v] := by
  rw [encodeVarintTunnel]
  simp [h]

theorem encodeVarint_big {v : Nat} (h : 128 ≤ v) :
    encodeVarintTunnel v = (v % 128 + 128) :: encodeVarintTunnel (v >>> 7) := by
  rw [encodeVarintTunnel]
  simp [Nat.not_lt.2 h]

theorem encodeVarint_length (v : Nat) :
    (encodeVarintTunnel v).length = sovTunnel v := by
  induction v using Nat.strong_induction_on with
  | _ v ih =>
    by_cases h : v < 128
    · rw [encodeVarint_small h, sov_small h]
      rfl
    · push_neg at h
      rw [encodeVarint_big h, List.length_cons, sov_rec h,
        ih (v >>> 7) (by rw [Nat.shiftRight_eq_div_pow]; exact Nat.div_lt_self (by omega) (by norm_num))]

theorem lenField_length (t : Nat) (c : List Nat) :
    (lenField t c).length = 1 + sovTunnel c.length + c.length := by
  simp [lenField, encodeVarint_length]
  omega

/-! Byte normal forms of the sized-buffer writers, and the proofs that the
writers always succeed with exactly these bytes, whose count is Size. -/

/-- The bytes Addr.MarshalToSizedBuffer deposits. -/
def Addr.enc (m : Addr) : List Nat :=
  (if 0 < m.Network.length then lenField 0xa m.Network else []) ++
  (if 0 < m.Address.length then lenField 0x12 m.Address else []) ++
  m.XXX_unrecognized

/-- The bytes the To field of DialRequest contributes: tag 0x1a, varint
count, then the Addr bytes, nothing for a nil pointer. -/
def optAddrField : Option Addr → List Nat
  | some a => lenField 0x1a a.enc
  | none => []

/-- The bytes DialRequest.MarshalToSizedBuffer deposits. -/
def DialRequest.enc (m : DialRequest) : List Nat :=
  (if 0 < m.ServerID.length then lenField 0xa m.ServerID else []) ++
  (if 0 < m.ConnType.length then lenField 0x12 m.ConnType else []) ++
  optAddrField m.To ++
  m.XXX_unrecognized

/-- The bytes Data.MarshalToSizedBuffer deposits. -/
def Data.enc (m : Data) : List Nat :=
  (if 0 < m.Bytes.length then lenField 0xa m.Bytes else []) ++
  m.XXX_unrecognized

/-- The bytes the oneof wrapper writers deposit. -/
def Frame_Message.enc : Frame_Message → List Nat
  | .dialRequest d =>
    match d with
    | some dr => lenField 0xa dr.enc
    | none => []
  | .data d =>
    match d with
    | some dd => lenField 0x12 dd.enc
    | none => []

/-- The bytes the oneof slot of Frame contributes, nothing for a nil
Message. -/
def optMsgField : Option Frame_Message → List Nat
  | some msg => msg.enc
  | none => []

/-- The bytes Frame.MarshalToSizedBuffer deposits. -/
def Frame.enc (m : Frame) : List Nat :=
  optMsgField m.Message ++ m.XXX_unrecognized

theorem Addr.msb_eq_addr (m : Addr) : m.MarshalToSizedBuffer = .ok m.enc := rfl

theorem Addr.enc_length_addr (m : Addr) : m.enc.length = m.Size := by
  unfold Addr.enc Addr.Size
  split <;> split <;> simp [lenField_length] <;> omega

theorem DialRequest.msb_eq_dr (m : DialRequest) :
    m.MarshalToSizedBuffer = .ok m.enc := by
  unfold DialRequest.MarshalToSizedBuffer DialRequest.enc
  cases m.To <;> simp [Addr.msb_eq_addr, optAddrField]

theorem DialRequest.enc_length_dr (m : DialRequest) : m.enc.length = m.Size := by
  unfold DialRequest.enc DialRequest.Size
  cases hTo : m.To with
  | none => split <;> split <;> simp [lenField_length, optAddrField] <;> omega
  | some a =>
    have ha := Addr.enc_length_addr a
    split <;> split <;> simp [lenField_length, optAddrField, ha] <;> omega

theorem Data.msb_eq_data (m : Data) : m.MarshalToSizedBuffer = .ok m.enc := rfl

theorem Data.enc_length_data (m : Data) : m.enc.length = m.Size := by
  unfold Data.enc Data.Size
  split <;> simp [lenField_length] <;> omega

theorem Frame_Message.marshalTo_eq (msg : Frame_Message) :
    msg.marshalTo = .ok msg.enc := by
  cases msg with
  | dialRequest d =>
    cases d <;> simp [Frame_Message.marshalTo, Frame_Message.enc, DialRequest.msb_eq_dr]
  | data d =>
    cases d <;> simp [Frame_Message.marshalTo, Frame_Message.enc, Data.msb_eq_data]

theorem Frame_Message.enc_length_fmsg (msg : Frame_Message) :
    msg.enc.length = msg.size := by
  cases msg with
  | dialRequest d =>
    cases d with
    | none => rfl
    | some dr =>
      simp [Frame_Message.enc, Frame_Message.size, lenField_length, DialRequest.enc_length_dr]
      omega
  | data d =>
    cases d with
    | none => rfl
    | some dd =>
      simp [Frame_Message.enc, Frame_Message.size, lenField_length, Data.enc_length_data]
      omega

theorem Frame.msb_eq_frame (m : Frame) : m.MarshalToSizedBuffer = .ok m.enc := by
  unfold Frame.MarshalToSizedBuffer Frame.enc
  cases hM : m.Message with
  | none => rfl
  | some msg =>
    simp [Frame_Message.marshalTo_eq, Frame_Message.enc_length_fmsg, optMsgField]

theorem Frame.enc_length_frame (m : Frame) : m.enc.length = m.Size := by
  unfold Frame.enc Frame.Size
  cases m.Message <;> simp [Frame_Message.enc_length_fmsg, optMsgField]

theorem Frame.marshal_eq_frame (m : Frame) : m.Marshal = .ok m.enc := by
  unfold Frame.Marshal
  rw [Frame.msb_eq_frame]
  simp [Frame.enc_length_frame]

theorem DialRequest.marshal_eq_dr (m : DialRequest) : m.Marshal = .ok m.enc := by
  unfold DialRequest.Marshal
  rw [DialRequest.msb_eq_dr]
  simp [DialRequest.enc_length_dr]

theorem Addr.marshal_eq_addr (m : Addr) : m.Marshal = .ok m.enc := by
  unfold Addr.Marshal
  rw [Addr.msb_eq_addr]
  simp [Addr.enc_length_addr]

theorem Data.marshal_eq_data (m : Data) : m.Marshal = .ok m.enc := by
  unfold Data.Marshal
  rw [Data.msb_eq_data]
  simp [Data.enc_length_data]

/-! The decoder primitives.  Every unmarshaler in the generated file reads
varints with the same inlined loop: guard `shift >= 64` (ErrIntOverflow),
guard `iNdEx >= l` (ErrUnexpectedEOF), read byte, accumulate the low seven
bits at the current shift into a uint64, stop when the continuation bit is
clear. -/

/-- The shared inlined varint-reading loop of the unmarshalers, on buffer
dAtA at index iNdEx with current shift and accumulator; returns the value
and the index one past the last byte read. -/
def readVarint (dAtA : List Nat) (iNdEx shift acc : Nat) : Except DErr (Nat × Nat) :=
  if _h64 : 64 ≤ shift then .error .intOverflow
  else if dAtA.length ≤ iNdEx then .error .eof
  else
    match dAtA[iNdEx]? with
    | none => .error .oob
    | some b =>
      let acc2 := (acc ||| ((b % 128) <<< shift)) % 2 ^ 64
      if b < 128 then .ok (acc2, iNdEx + 1)
      else readVarint dAtA (iNdEx + 1) (shift + 7) acc2
termination_by 64 - shift
decreasing_by omega

theorem readVarint_lt_aux :
    ∀ fuel shift, 64 - shift ≤ fuel →
      ∀ dAtA iNdEx acc v j, readVarint dAtA iNdEx shift acc = .ok (v, j) → iNdEx < j := by
  intro fuel
  induction fuel with
  | zero =>
    intro shift hs dAtA i acc v j h
    unfold readVarint at h
    rw [dif_pos (by omega)] at h
    exact absurd h (by simp)
  | succ fuel ih =>
    intro shift hs dAtA i acc v j h
    unfold readVarint at h
    split at h
    · exact absurd h (by simp)
    · split at h
      · exact absurd h (by simp)
      · split at h
        · exact absurd h (by simp)
        · split at h
          · simp only [Except.ok.injEq, Prod.mk.injEq] at h
            omega
          · have := ih (shift + 7) (by omega) dAtA (i + 1) _ v j h
            omega

theorem readVarint_lt {dAtA iNdEx shift acc v j}
    (h : readVarint dAtA iNdEx shift acc = .ok (v, j)) : iNdEx < j :=
  readVarint_lt_aux (64 - shift) shift le_rfl dAtA iNdEx acc v j h

/-- The varint-skipping loop of skipTunnel case 0 (wire type 0), which
discards the value. -/
def skipGroupVarint (dAtA : List Nat) (iNdEx shift : Nat) : Except DErr Nat :=
  if _h64 : 64 ≤ shift then .error .intOverflow
  else if dAtA.length ≤ iNdEx then .error .eof
  else
    match dAtA[iNdEx]? with
    | none => .error .oob
    | some b =>
      if b < 128 then .ok (iNdEx + 1)
      else skipGroupVarint dAtA (iNdEx + 1) (shift + 7)
termination_by 64 - shift
decreasing_by omega

theorem skipGroupVarint_lt_aux :
    ∀ fuel shift, 64 - shift ≤ fuel →
      ∀ dAtA iNdEx j, skipGroupVarint dAtA iNdEx shift = .ok j → iNdEx < j := by
  intro fuel
  induction fuel with
  | zero =>
    intro shift hs dAtA i j h
    unfold skipGroupVarint at h
    rw [dif_pos (by omega)] at h
    exact absurd h (by simp)
  | succ fuel ih =>
    intro shift hs dAtA i j h
    unfold skipGroupVarint at h
    split at h
    · exact absurd h (by simp)
    · split at h
      · exact absurd h (by simp)
      · split at h
        · exact absurd h (by simp)
        · split at h
          · simp only [Except.ok.injEq] at h
            omega
          · have := ih (shift + 7) (by omega) dAtA (i + 1) j h
            omega

theorem skipGroupVarint_lt {dAtA iNdEx shift j}
    (h : skipGroupVarint dAtA iNdEx shift = .ok j) : iNdEx < j :=
  skipGroupVarint_lt_aux (64 - shift) shift le_rfl dAtA iNdEx j h

/-- The switch on the wire type inside the skipTunnel loop, after the tag
varint was read ending at index i1; yields the index after the skipped
field body together with the updated group depth. -/
def skipStep (dAtA : List Nat) (i1 wireType depth : Nat) : Except DErr (Nat × Nat) :=
  match wireType with
  | 0 =>
    match skipGroupVarint dAtA i1 0 with
    | .error e => .error e
    | .ok i2 => .ok (i2, depth)
  | 1 => .ok (i1 + 8, depth)
  | 2 =>
    match readVarint dAtA i1 0 0 with
    | .error e => .error e
    | .ok (length, i2) =>
      if 2 ^ 63 ≤ length then .error .invalidLength
      else .ok (i2 + length, depth)
  | 3 => .ok (i1, depth + 1)
  | 4 =>
    if depth = 0 then .error .endGroup
    else .ok (i1, depth - 1)
  | 5 => .ok (i1 + 4, depth)
  | _ => .error .illegalWireType

theorem skipStep_le {dAtA i1 wireType depth i2 d2}
    (h : skipStep dAtA i1 wireType depth = .ok (i2, d2)) : i1 ≤ i2 := by
  unfold skipStep at h
  split at h
  · split at h
    · exact absurd h (by simp)
    · simp only [Except.ok.injEq, Prod.mk.injEq] at h
      have := skipGroupVarint_lt (by assumption)
      omega
  · simp only [Except.ok.injEq, Prod.mk.injEq] at h
    omega
  · split at h
    · exact absurd h (by simp)
    · split at h
      · exact absurd h (by simp)
      · simp only [Except.ok.injEq, Prod.mk.injEq] at h
        have := readVarint_lt (by assumption)
        omega
  · simp only [Except.ok.injEq, Prod.mk.injEq] at h
    omega
  · split at h
    · exact absurd h (by simp)
    · simp only [Except.ok.injEq, Prod.mk.injEq] at h
      omega
  · simp only [Except.ok.injEq, Prod.mk.injEq] at h
    omega
  · exact absurd h (by simp)

/-- One iteration of the skipTunnel loop: read the tag varint, dispatch on
the wire type, then apply the `iNdEx < 0` wrap check (negative int64 is the
bit pattern at or above 2^63). -/
def skipIter (dAtA : List Nat) (iNdEx depth : Nat) : Except DErr (Nat × Nat) :=
  match readVarint dAtA iNdEx 0 0 with
  | .error e => .error e
  | .ok (wire, i1) =>
    match skipStep dAtA i1 (wire % 8) depth with
    | .error e => .error e
    | .ok (i2, depth2) =>
      if 2 ^ 63 ≤ i2 then .error .invalidLength
      else .ok (i2, depth2)

theorem skipIter_lt {dAtA iNdEx depth i2 d2}
    (h : skipIter dAtA iNdEx depth = .ok (i2, d2)) : iNdEx < i2 := by
  unfold skipIter at h
  split at h
  · exact absurd h (by simp)
  · split at h
    · exact absurd h (by simp)
    · split at h
      · exact absurd h (by simp)
      · simp only [Except.ok.injEq, Prod.mk.injEq] at h
        have h1 := readVarint_lt (by assumption)
        have h2 := skipStep_le (by assumption)
        omega

/-- The skipTunnel loop; returns (like the Go function, relative to the
buffer it was handed) the number of bytes the unknown field occupies. -/
def skipLoop (dAtA : List Nat) (iNdEx depth : Nat) : Except DErr Nat :=
  if _h : iNdEx < dAtA.length then
    match hs : skipIter dAtA iNdEx depth with
    | .error e => .error e
    | .ok (i2, depth2) =>
      if depth2 = 0 then .ok i2
      else skipLoop dAtA i2 depth2
  else .error .eof
termination_by dAtA.length - iNdEx
decreasing_by
  have := skipIter_lt hs
  omega

/-- skipTunnel. -/
def skipTunnel (dAtA : List Nat) : Except DErr Nat :=
  skipLoop dAtA 0 0

theorem skipLoop_lt_aux :
    ∀ fuel dAtA iNdEx depth n, dAtA.length - iNdEx ≤ fuel →
      skipLoop dAtA iNdEx depth = .ok n → iNdEx < n := by
  intro fuel
  induction fuel with
  | zero =>
    intro dAtA i depth n hf h
    unfold skipLoop at h
    rw [dif_neg (by omega)] at h
    exact absurd h (by simp)
  | succ fuel ih =>
    intro dAtA i depth n hf h
    unfold skipLoop at h
    split at h
    · split at h
      · exact absurd h (by simp)
      · rename_i heq
        have hlt := skipIter_lt heq
        split at h
        · simp only [Except.ok.injEq] at h
          omega
        · have := ih dAtA _ _ n (by omega) h
          omega
    · exact absurd h (by simp)

theorem skipTunnel_pos {dAtA n} (h : skipTunnel dAtA = .ok n) : 1 ≤ n := by
  have := skipLoop_lt_aux (dAtA.length) dAtA 0 0 n (by omega) h
  omega

/-! The four message unmarshalers.  Each is the Go field loop, split into a
non-recursive per-iteration body (unmarshalStep, the loop body from the tag
read through the switch on fieldNum) and the loop itself (unmarshalLoop,
with the final `iNdEx > l` check).  Tag handling is shared: fieldNum is
int32(wire >> 3) so the low 32 bits of the shifted tag, with `fieldNum <= 0`
(the illegal-tag guard) holding exactly when those bits are zero or at or
above 2^31; wireType is int(wire & 0x7). -/

/-- One iteration of the Addr.Unmarshal field loop: fields 1 (Network) and
2 (Address) are strings with wire type 2, everything else goes through
skipTunnel and is appended to XXX_unrecognized. -/
def Addr.unmarshalStep (dAtA : List Nat) (iNdEx : Nat) (m : Addr) :
    Except DErr (Nat × Addr) :=
  let l := dAtA.length
  let preIndex := iNdEx
  match readVarint dAtA iNdEx 0 0 with
  | .error e => .error e
  | .ok (wire, i1) =>
    let fieldNum := (wire >>> 3) % 2 ^ 32
    let wireType := wire % 8
    if wireType = 4 then .error .endGroupForNonGroup
    else if fieldNum = 0 ∨ 2 ^ 31 ≤ fieldNum then .error .illegalTag
    else if fieldNum = 1 then
      if wireType ≠ 2 then .error .wrongWireType
      else
        match readVarint dAtA i1 0 0 with
        | .error e => .error e
        | .ok (stringLen, i2) =>
          if 2 ^ 63 ≤ stringLen then .error .invalidLength
          else
            let postIndex := i2 + stringLen
            if 2 ^ 63 ≤ postIndex then .error .invalidLength
            else if l < postIndex then .error .eof
            else .ok (postIndex, { m with Network := (dAtA.drop i2).take stringLen })
    else if fieldNum = 2 then
      if wireType ≠ 2 then .error .wrongWireType
      else
        match readVarint dAtA i1 0 0 with
        | .error e => .error e
        | .ok (stringLen, i2) =>
          if 2 ^ 63 ≤ stringLen then .error .invalidLength
          else
            let postIndex := i2 + stringLen
            if 2 ^ 63 ≤ postIndex then .error .invalidLength
            else if l < postIndex then .error .eof
            else .ok (postIndex, { m with Address := (dAtA.drop i2).take stringLen })
    else
      match skipTunnel (dAtA.drop preIndex) with
      | .error e => .error e
      | .ok skippy =>
        if 2 ^ 63 ≤ preIndex + skippy then .error .invalidLength
        else if l < preIndex + skippy then .error .eof
        else .ok (preIndex + skippy,
          { m with XXX_unrecognized :=
              m.XXX_unrecognized ++ (dAtA.drop preIndex).take skippy })

set_option maxHeartbeats 1000000 in
theorem Addr.unmarshalStep_lt_addr {dAtA iNdEx m j m2}
    (h : Addr.unmarshalStep dAtA iNdEx m = .ok (j, m2)) : iNdEx < j := by
  unfold Addr.unmarshalStep at h
  dsimp only at h
  rcases hr0 : readVarint dAtA iNdEx 0 0 with e0 | ⟨wire, i1⟩ <;> rw [hr0] at h
  · exact Except.noConfusion h
  have h0 := readVarint_lt hr0
  dsimp only at h
  rcases hsk : skipTunnel (List.drop iNdEx dAtA) with e2 | sk <;> rw [hsk] at h <;>
    rcases hr1 : readVarint dAtA i1 0 0 with e1 | ⟨len1, i2⟩ <;> rw [hr1] at h <;>
    dsimp only at h
  all_goals repeat' split at h
  all_goals try exact Except.noConfusion h
  all_goals simp only [Except.ok.injEq, Prod.mk.injEq] at h
  all_goals try have h1 := readVarint_lt hr1
  all_goals try have h2 := skipTunnel_pos hsk
  all_goals omega

/-- The Addr.Unmarshal field loop. -/
def Addr.unmarshalLoop (dAtA : List Nat) (iNdEx : Nat) (m : Addr) :
    Except DErr Addr :=
  if _h : iNdEx < dAtA.length then
    match hs : Addr.unmarshalStep dAtA iNdEx m with
    | .error e => .error e
    | .ok (j, m2) => Addr.unmarshalLoop dAtA j m2
  else if dAtA.length < iNdEx then .error .eof
  else .ok m
termination_by dAtA.length - iNdEx
decreasing_by
  have := Addr.unmarshalStep_lt_addr hs
  omega

/-- Addr.Unmarshal, decoding into the receiver m. -/
def Addr.Unmarshal (m : Addr) (dAtA : List Nat) : Except DErr Addr :=
  Addr.unmarshalLoop dAtA 0 m

/-- One iteration of the DialRequest.Unmarshal field loop: fields 1
(ServerID) and 2 (ConnType) are strings, field 3 (To) is a nested Addr
decoded from the declared sub-slice (merged into the existing To, a fresh
Addr when nil), default goes through skipTunnel. -/
def DialRequest.unmarshalStep (dAtA : List Nat) (iNdEx : Nat) (m : DialRequest) :
    Except DErr (Nat × DialRequest) :=
  let l := dAtA.length
  let preIndex := iNdEx
  match readVarint dAtA iNdEx 0 0 with
  | .error e => .error e
  | .ok (wire, i1) =>
    let fieldNum := (wire >>> 3) % 2 ^ 32
    let wireType := wire % 8
    if wireType = 4 then .error .endGroupForNonGroup
    else if fieldNum = 0 ∨ 2 ^ 31 ≤ fieldNum then .error .illegalTag
    else if fieldNum = 1 then
      if wireType ≠ 2 then .error .wrongWireType
      else
        match readVarint dAtA i1 0 0 with
        | .error e => .error e
        | .ok (stringLen, i2) =>
          if 2 ^ 63 ≤ stringLen then .error .invalidLength
          else
            let postIndex := i2 + stringLen
            if 2 ^ 63 ≤ postIndex then .error .invalidLength
            else if l < postIndex then .error .eof
            else .ok (postIndex, { m with ServerID := (dAtA.drop i2).take stringLen })
    else if fieldNum = 2 then
      if wireType ≠ 2 then .error .wrongWireType
      else
        match readVarint dAtA i1 0 0 with
        | .error e => .error e
        | .ok (stringLen, i2) =>
          if 2 ^ 63 ≤ stringLen then .error .invalidLength
          else
            let postIndex := i2 + stringLen
            if 2 ^ 63 ≤ postIndex then .error .invalidLength
            else if l < postIndex then .error .eof
            else .ok (postIndex, { m with ConnType := (dAtA.drop i2).take stringLen })
    else if fieldNum = 3 then
      if wireType ≠ 2 then .error .wrongWireType
      else
        match readVarint dAtA i1 0 0 with
        | .error e => .error e
        | .ok (msglen, i2) =>
          if 2 ^ 63 ≤ msglen then .error .invalidLength
          else
            let postIndex := i2 + msglen
            if 2 ^ 63 ≤ postIndex then .error .invalidLength
            else if l < postIndex then .error .eof
            else
              match Addr.Unmarshal
                  (m.To.getD { Network := [], Address := [], XXX_unrecognized := [] })
                  ((dAtA.drop i2).take msglen) with
              | .error e => .error e
              | .ok a => .ok (postIndex, { m with To := some a })
    else
      match skipTunnel (dAtA.drop preIndex) with
      | .error e => .error e
      | .ok skippy =>
        if 2 ^ 63 ≤ preIndex + skippy then .error .invalidLength
        else if l < preIndex + skippy then .error .eof
        else .ok (preIndex + skippy,
          { m with XXX_unrecognized :=
              m.XXX_unrecognized ++ (dAtA.drop preIndex).take skippy })

set_option maxHeartbeats 1000000 in
theorem DialRequest.unmarshalStep_lt_dr {dAtA iNdEx m j m2}
    (h : DialRequest.unmarshalStep dAtA iNdEx m = .ok (j, m2)) : iNdEx < j := by
  unfold DialRequest.unmarshalStep at h
  dsimp only at h
  rcases hr0 : readVarint dAtA iNdEx 0 0 with e0 | ⟨wire, i1⟩ <;> rw [hr0] at h
  · exact Except.noConfusion h
  have h0 := readVarint_lt hr0
  dsimp only at h
  rcases hsk : skipTunnel (List.drop iNdEx dAtA) with e2 | sk <;> rw [hsk] at h <;>
    rcases hr1 : readVarint dAtA i1 0 0 with e1 | ⟨len1, i2⟩ <;> rw [hr1] at h <;>
    dsimp only at h
  all_goals repeat' split at h
  all_goals try exact Except.noConfusion h
  all_goals simp only [Except.ok.injEq, Prod.mk.injEq] at h
  all_goals try have h1 := readVarint_lt hr1
  all_goals try have h2 := skipTunnel_pos hsk
  all_goals omega

/-- The DialRequest.Unmarshal field loop. -/
def DialRequest.unmarshalLoop (dAtA : List Nat) (iNdEx : Nat) (m : DialRequest) :
    Except DErr DialRequest :=
  if _h : iNdEx < dAtA.length then
    match hs : DialRequest.unmarshalStep dAtA iNdEx m with
    | .error e => .error e
    | .ok (j, m2) => DialRequest.unmarshalLoop dAtA j m2
  else if dAtA.length < iNdEx then .error .eof
  else .ok m
termination_by dAtA.length - iNdEx
decreasing_by
  have := DialRequest.unmarshalStep_lt_dr hs
  omega

/-- DialRequest.Unmarshal, decoding into the receiver m. -/
def DialRequest.Unmarshal (m : DialRequest) (dAtA : List Nat) : Except DErr DialRequest :=
  DialRequest.unmarshalLoop dAtA 0 m

/-- One iteration of the Data.Unmarshal field loop: field 1 (Bytes) is a
bytes field with wire type 2 that replaces the Bytes slice with the
declared range, default goes through skipTunnel. -/
def Data.unmarshalStep (dAtA : List Nat) (iNdEx : Nat) (m : Data) :
    Except DErr (Nat × Data) :=
  let l := dAtA.length
  let preIndex := iNdEx
  match readVarint dAtA iNdEx 0 0 with
  | .error e => .error e
  | .ok (wire, i1) =>
    let fieldNum := (wire >>> 3) % 2 ^ 32
    let wireType := wire % 8
    if wireType = 4 then .error .endGroupForNonGroup
    else if fieldNum = 0 ∨ 2 ^ 31 ≤ fieldNum then .error .illegalTag
    else if fieldNum = 1 then
      if wireType ≠ 2 then .error .wrongWireType
      else
        match readVarint dAtA i1 0 0 with
        | .error e => .error e
        | .ok (byteLen, i2) =>
          if 2 ^ 63 ≤ byteLen then .error .invalidLength
          else
            let postIndex := i2 + byteLen
            if 2 ^ 63 ≤ postIndex then .error .invalidLength
            else if l < postIndex then .error .eof
            else .ok (postIndex, { m with Bytes := (dAtA.drop i2).take byteLen })
    else
      match skipTunnel (dAtA.drop preIndex) with
      | .error e => .error e
      | .ok skippy =>
        if 2 ^ 63 ≤ preIndex + skippy then .error .invalidLength
        else if l < preIndex + skippy then .error .eof
        else .ok (preIndex + skippy,
          { m with XXX_unrecognized :=
              m.XXX_unrecognized ++ (dAtA.drop preIndex).take skippy })

set_option maxHeartbeats 1000000 in
theorem Data.unmarshalStep_lt_data {dAtA iNdEx m j m2}
    (h : Data.unmarshalStep dAtA iNdEx m = .ok (j, m2)) : iNdEx < j := by
  unfold Data.unmarshalStep at h
  dsimp only at h
  rcases hr0 : readVarint dAtA iNdEx 0 0 with e0 | ⟨wire, i1⟩ <;> rw [hr0] at h
  · exact Except.noConfusion h
  have h0 := readVarint_lt hr0
  dsimp only at h
  rcases hsk : skipTunnel (List.drop iNdEx dAtA) with e2 | sk <;> rw [hsk] at h <;>
    rcases hr1 : readVarint dAtA i1 0 0 with e1 | ⟨len1, i2⟩ <;> rw [hr1] at h <;>
    dsimp only at h
  all_goals repeat' split at h
  all_goals try exact Except.noConfusion h
  all_goals simp only [Except.ok.injEq, Prod.mk.injEq] at h
  all_goals try have h1 := readVarint_lt hr1
  all_goals try have h2 := skipTunnel_pos hsk
  all_goals omega

/-- The Data.Unmarshal field loop. -/
def Data.unmarshalLoop (dAtA : List Nat) (iNdEx : Nat) (m : Data) :
    Except DErr Data :=
  if _h : iNdEx < dAtA.length then
    match hs : Data.unmarshalStep dAtA iNdEx m with
    | .error e => .error e
    | .ok (j, m2) => Data.unmarshalLoop dAtA j m2
  else if dAtA.length < iNdEx then .error .eof
  else .ok m
termination_by dAtA.length - iNdEx
decreasing_by
  have := Data.unmarshalStep_lt_data hs
  omega

/-- Data.Unmarshal, decoding into the receiver m. -/
def Data.Unmarshal (m : Data) (dAtA : List Nat) : Except DErr Data :=
  Data.unmarshalLoop dAtA 0 m

/-- One iteration of the Frame.Unmarshal field loop: field 1 decodes a
fresh DialRequest from the declared sub-slice and sets the oneof to
Frame_DialRequest, field 2 does the same with Data and Frame_Data, default
goes through skipTunnel. -/
def Frame.unmarshalStep (dAtA : List Nat) (iNdEx : Nat) (m : Frame) :
    Except DErr (Nat × Frame) :=
  let l := dAtA.length
  let preIndex := iNdEx
  match readVarint dAtA iNdEx 0 0 with
  | .error e => .error e
  | .ok (wire, i1) =>
    let fieldNum := (wire >>> 3) % 2 ^ 32
    let wireType := wire % 8
    if wireType = 4 then .error .endGroupForNonGroup
    else if fieldNum = 0 ∨ 2 ^ 31 ≤ fieldNum then .error .illegalTag
    else if fieldNum = 1 then
      if wireType ≠ 2 then .error .wrongWireType
      else
        match readVarint dAtA i1 0 0 with
        | .error e => .error e
        | .ok (msglen, i2) =>
          if 2 ^ 63 ≤ msglen then .error .invalidLength
          else
            let postIndex := i2 + msglen
            if 2 ^ 63 ≤ postIndex then .error .invalidLength
            else if l < postIndex then .error .eof
            else
              match DialRequest.Unmarshal
                  { ServerID := [], ConnType := [], To := none, XXX_unrecognized := [] }
                  ((dAtA.drop i2).take msglen) with
              | .error e => .error e
              | .ok v => .ok (postIndex, { m with Message := some (.dialRequest (some v)) })
    else if fieldNum = 2 then
      if wireType ≠ 2 then .error .wrongWireType
      else
        match readVarint dAtA i1 0 0 with
        | .error e => .error e
        | .ok (msglen, i2) =>
          if 2 ^ 63 ≤ msglen then .error .invalidLength
          else
            let postIndex := i2 + msglen
            if 2 ^ 63 ≤ postIndex then .error .invalidLength
            else if l < postIndex then .error .eof
            else
              match Data.Unmarshal
                  { Bytes := [], XXX_unrecognized := [] }
                  ((dAtA.drop i2).take msglen) with
              | .error e => .error e
              | .ok v => .ok (postIndex, { m with Message := some (.data (some v)) })
    else
      match skipTunnel (dAtA.drop preIndex) with
      | .error e => .error e
      | .ok skippy =>
        if 2 ^ 63 ≤ preIndex + skippy then .error .invalidLength
        else if l < preIndex + skippy then .error .eof
        else .ok (preIndex + skippy,
          { m with XXX_unrecognized :=
              m.XXX_unrecognized ++ (dAtA.drop preIndex).take skippy })

set_option maxHeartbeats 1000000 in
theorem Frame.unmarshalStep_lt_frame {dAtA iNdEx m j m2}
    (h : Frame.unmarshalStep dAtA iNdEx m = .ok (j, m2)) : iNdEx < j := by
  unfold Frame.unmarshalStep at h
  dsimp only at h
  rcases hr0 : readVarint dAtA iNdEx 0 0 with e0 | ⟨wire, i1⟩ <;> rw [hr0] at h
  · exact Except.noConfusion h
  have h0 := readVarint_lt hr0
  dsimp only at h
  rcases hsk : skipTunnel (List.drop iNdEx dAtA) with e2 | sk <;> rw [hsk] at h <;>
    rcases hr1 : readVarint dAtA i1 0 0 with e1 | ⟨len1, i2⟩ <;> rw [hr1] at h <;>
    dsimp only at h
  all_goals repeat' split at h
  all_goals try exact Except.noConfusion h
  all_goals simp only [Except.ok.injEq, Prod.mk.injEq] at h
  all_goals try have h1 := readVarint_lt hr1
  all_goals try have h2 := skipTunnel_pos hsk
  all_goals omega

/-- The Frame.Unmarshal field loop. -/
def Frame.unmarshalLoop (dAtA : List Nat) (iNdEx : Nat) (m : Frame) :
    Except DErr Frame :=
  if _h : iNdEx < dAtA.length then
    match hs : Frame.unmarshalStep dAtA iNdEx m with
    | .error e => .error e
    | .ok (j, m2) => Frame.unmarshalLoop dAtA j m2
  else if dAtA.length < iNdEx then .error .eof
  else .ok m
termination_by dAtA.length - iNdEx
decreasing_by
  have := Frame.unmarshalStep_lt_frame hs
  omega

/-- Frame.Unmarshal, decoding into the receiver m. -/
def Frame.Unmarshal (m : Frame) (dAtA : List Nat) : Except DErr Frame :=
  Frame.unmarshalLoop dAtA 0 m

/-- The decode operation of the codec contract: Frame.Unmarshal into a
fresh Frame, exactly as the generated stream Recv path allocates
`new(Frame)` before unmarshaling. -/
def Frame.decode (dAtA : List Nat) : Except DErr Frame :=
  Frame.Unmarshal { Message := none, XXX_unrecognized := [] } dAtA

/-- DialRequest.Unmarshal into a fresh DialRequest. -/
def DialRequest.decode (dAtA : List Nat) : Except DErr DialRequest :=
  DialRequest.Unmarshal { ServerID := [], ConnType := [], To := none, XXX_unrecognized := [] } dAtA

/-- Addr.Unmarshal into a fresh Addr. -/
def Addr.decode (dAtA : List Nat) : Except DErr Addr :=
  Addr.Unmarshal { Network := [], Address := [], XXX_unrecognized := [] } dAtA

/-- Data.Unmarshal into a fresh Data. -/
def Data.decode (dAtA : List Nat) : Except DErr Data :=
  Data.Unmarshal { Bytes := [], XXX_unrecognized := [] } dAtA

/-! Position bookkeeping helpers for buffers described through List.drop. -/

theorem drop_cons_getElem {l : List Nat} {i b : Nat} {rest : List Nat}
    (h : l.drop i = b :: rest) : l[i]? = some b := by
  have h0 := List.getElem?_drop l i 0
  rw [h] at h0
  simpa using h0.symm

theorem drop_cons_lt {l : List Nat} {i b : Nat} {rest : List Nat}
    (h : l.drop i = b :: rest) : i < l.length := by
  by_contra hc
  push_neg at hc
  rw [List.drop_eq_nil_iff.2 hc] at h
  exact List.noConfusion h

theorem drop_succ_of_drop_cons {l : List Nat} {i b : Nat} {rest : List Nat}
    (h : l.drop i = b :: rest) : l.drop (i + 1) = rest := by
  calc l.drop (i + 1) = (l.drop i).drop 1 := by rw [List.drop_drop]
    _ = (b :: rest).drop 1 := by rw [h]
    _ = rest := rfl

theorem drop_append_shift {l A rest : List Nat} {i : Nat} (h : l.drop i = A ++ rest) :
    l.drop (i + A.length) = rest := by
  calc l.drop (i + A.length) = (l.drop i).drop A.length := by rw [List.drop_drop]
    _ = (A ++ rest).drop A.length := by rw [h]
    _ = rest := List.drop_left A rest

theorem drop_append_lengths {l A rest : List Nat} {i : Nat}
    (h : l.drop i = A ++ rest) (hi : i ≤ l.length) :
    l.length = i + A.length + rest.length := by
  have hlen := congrArg List.length h
  rw [List.length_drop, List.length_append] at hlen
  omega

theorem drop_append_take {l A rest : List Nat} {i : Nat} (h : l.drop i = A ++ rest) :
    (l.drop i).take A.length = A := by
  rw [h]
  exact List.take_left A rest

/-! Correctness of readVarint on encoded varints. -/

theorem shiftLeft_lor_split (v s : Nat) :
    ((v % 128) <<< s) ||| ((v >>> 7) <<< (s + 7)) = v <<< s := by
  apply Nat.eq_of_testBit_eq
  intro k
  rw [show (128 : Nat) = 2 ^ 7 by norm_num]
  simp only [Nat.testBit_lor, Nat.testBit_shiftLeft, Nat.testBit_shiftRight,
    Nat.testBit_mod_two_pow]
  rcases Nat.lt_or_ge k s with hk | hk
  · have d1 : ¬ s ≤ k := by omega
    have d2 : ¬ s + 7 ≤ k := by omega
    simp [d1, d2]
  · rcases Nat.lt_or_ge k (s + 7) with hk7 | hk7
    · have d1 : s ≤ k := hk
      have d2 : ¬ s + 7 ≤ k := by omega
      have d3 : k - s < 7 := by omega
      simp [d1, d2, d3]
    · have d2 : s + 7 ≤ k := hk7
      have d3 : ¬ k - s < 7 := by omega
      have d4 : 7 + (k - (s + 7)) = k - s := by omega
      simp [hk, d2, d3, d4]

theorem shiftLeft_lt_two_pow {v s n : Nat} (hv : v < 2 ^ n) (hsn : s + n ≤ 64) :
    v <<< s < 2 ^ 64 := by
  rw [Nat.shiftLeft_eq]
  calc v * 2 ^ s < 2 ^ n * 2 ^ s :=
        Nat.mul_lt_mul_of_lt_of_le hv (le_refl _) (Nat.two_pow_pos s)
    _ = 2 ^ (n + s) := by rw [pow_add]
    _ ≤ 2 ^ 64 := Nat.pow_le_pow_right (by norm_num) (by omega)

theorem readVarint_encode :
    ∀ v shift acc iNdEx rest (dAtA : List Nat), shift < 64 → v < 2 ^ (64 - shift) →
      acc < 2 ^ 64 →
      dAtA.drop iNdEx = encodeVarintTunnel v ++ rest →
      readVarint dAtA iNdEx shift acc =
        .ok (acc ||| (v <<< shift), iNdEx + (encodeVarintTunnel v).length) := by
  intro v
  induction v using Nat.strong_induction_on with
  | _ v ih =>
    intro shift acc iNdEx rest dAtA hsh hv hacc hd
    by_cases hsmall : v < 128
    · rw [encodeVarint_small hsmall] at hd ⊢
      simp only [List.cons_append, List.nil_append] at hd
      have hget := drop_cons_getElem hd
      have hlt := drop_cons_lt hd
      rw [readVarint]
      rw [dif_neg (by omega), if_neg (by omega), hget]
      have hmod : v % 128 = v := Nat.mod_eq_of_lt hsmall
      have hfit : acc ||| (v <<< shift) < 2 ^ 64 := by
        apply Nat.or_lt_two_pow hacc
        exact shiftLeft_lt_two_pow hv (by omega)
      simp only [hmod, if_pos hsmall]
      rw [Nat.mod_eq_of_lt hfit]
      simp
    · push_neg at hsmall
      rw [encodeVarint_big hsmall] at hd ⊢
      simp only [List.cons_append] at hd
      have hget := drop_cons_getElem hd
      have hlt := drop_cons_lt hd
      have hs7 : shift + 7 < 64 := by
        by_contra hc
        push_neg at hc
        have : (2 : Nat) ^ (64 - shift) ≤ 2 ^ 7 :=
          Nat.pow_le_pow_right (by norm_num) (by omega)
        omega
      have hb128 : ¬ (v % 128 + 128 < 128) := by omega
      have hbmod : (v % 128 + 128) % 128 = v % 128 := by omega
      have hfit2 : acc ||| ((v % 128) <<< shift) < 2 ^ 64 := by
        apply Nat.or_lt_two_pow hacc
        apply shiftLeft_lt_two_pow (n := 7)
        · have hm : v % 128 < 128 := Nat.mod_lt v (by norm_num)
          norm_num
          omega
        · omega
      rw [readVarint]
      rw [dif_neg (by omega), if_neg (by omega), hget]
      simp only [hbmod, if_neg hb128]
      rw [Nat.mod_eq_of_lt hfit2]
      have hrec := ih (v >>> 7)
        (by rw [Nat.shiftRight_eq_div_pow]; exact Nat.div_lt_self (by omega) (by norm_num))
        (shift + 7) (acc ||| ((v % 128) <<< shift)) (iNdEx + 1) rest dAtA hs7
        (by
          rw [Nat.shiftRight_eq_div_pow]
          rw [Nat.div_lt_iff_lt_mul (by norm_num : (0:Nat) < 2 ^ 7)]
          calc v < 2 ^ (64 - shift) := hv
            _ = 2 ^ (64 - (shift + 7)) * 2 ^ 7 := by
                rw [← pow_add]
                congr 1
                omega)
        hfit2
        (drop_succ_of_drop_cons hd)
      rw [hrec]
      simp only [List.length_cons, Except.ok.injEq, Prod.mk.injEq]
      constructor
      · rw [Nat.lor_assoc, shiftLeft_lor_split]
      · omega

theorem readVarint_enc0 {v iNdEx : Nat} {rest dAtA : List Nat} (hv : v < 2 ^ 64)
    (hd : dAtA.drop iNdEx = encodeVarintTunnel v ++ rest) :
    readVarint dAtA iNdEx 0 0 = .ok (v, iNdEx + sovTunnel v) := by
  have h := readVarint_encode v 0 0 iNdEx rest dAtA (by norm_num) (by simpa using hv)
    (by norm_num) hd
  rw [h, encodeVarint_length]
  simp

theorem readVarint_byte {b iNdEx : Nat} {rest dAtA : List Nat} (hb : b < 128)
    (hd : dAtA.drop iNdEx = b :: rest) :
    readVarint dAtA iNdEx 0 0 = .ok (b, iNdEx + 1) := by
  have h := readVarint_enc0 (v := b) (by omega)
    (by rw [encodeVarint_small hb]; simpa using hd)
  rw [h, sov_small hb]

/-- Reading a varint whose encoding was cut off at the end of the buffer
fails with unexpected EOF (as long as the shift guard cannot fire first,
which holds whenever at most eight continuation bytes remain). -/
theorem readVarint_truncated :
    ∀ j v shift acc iNdEx (dAtA : List Nat),
      shift + 7 * j < 64 → j < (encodeVarintTunnel v).length →
      dAtA.drop iNdEx = (encodeVarintTunnel v).take j →
      dAtA.length = iNdEx + j →
      readVarint dAtA iNdEx shift acc = .error .eof := by
  intro j
  induction j with
  | zero =>
    intro v shift acc iNdEx dAtA hsh hlen hd hl
    rw [readVarint]
    rw [dif_neg (by omega), if_pos (by omega)]
  | succ j ihj =>
    intro v shift acc iNdEx dAtA hsh hlen hd hl
    by_cases hsmall : v < 128
    · rw [encodeVarint_small hsmall] at hlen
      simp at hlen
    · push_neg at hsmall
      rw [encodeVarint_big hsmall] at hlen hd
      simp only [List.take_succ_cons] at hd
      simp only [List.length_cons] at hlen
      have hget := drop_cons_getElem hd
      have hlt := drop_cons_lt hd
      rw [readVarint]
      rw [dif_neg (by omega), if_neg (by omega), hget]
      have hb128 : ¬ (v % 128 + 128 < 128) := by omega
      simp only [hb128, if_false, ite_false]
      exact ihj (v >>> 7) (shift + 7) _ (iNdEx + 1) dAtA (by omega) (by omega)
        (drop_succ_of_drop_cons hd) (by omega)

/-! Bridging lemmas relating one loop iteration to its step result. -/

theorem Addr.loop_continue_addr {dAtA : List Nat} {i : Nat} {m : Addr} {j : Nat} {m2 : Addr}
    (hlt : i < dAtA.length) (hs : Addr.unmarshalStep dAtA i m = .ok (j, m2)) :
    Addr.unmarshalLoop dAtA i m = Addr.unmarshalLoop dAtA j m2 := by
  rw [Addr.unmarshalLoop]
  rw [dif_pos hlt]
  split
  · rename_i e heq
    rw [hs] at heq
    exact Except.noConfusion heq
  · rename_i j2 m22 heq
    rw [hs] at heq
    injection heq with heq2
    injection heq2 with hj hm
    rw [hj, hm]

theorem Addr.loop_error_addr {dAtA : List Nat} {i : Nat} {m : Addr} {e : DErr}
    (hlt : i < dAtA.length) (hs : Addr.unmarshalStep dAtA i m = .error e) :
    Addr.unmarshalLoop dAtA i m = .error e := by
  rw [Addr.unmarshalLoop]
  rw [dif_pos hlt]
  split
  · rename_i e2 heq
    rw [hs] at heq
    injection heq with he
    rw [he]
  · rename_i j2 m22 heq
    rw [hs] at heq
    exact Except.noConfusion heq

theorem Addr.loop_end_addr {dAtA : List Nat} {m : Addr} :
    Addr.unmarshalLoop dAtA dAtA.length m = .ok m := by
  rw [Addr.unmarshalLoop]
  rw [dif_neg (lt_irrefl _), if_neg (lt_irrefl _)]

theorem DialRequest.loop_continue_dr {dAtA : List Nat} {i : Nat} {m : DialRequest}
    {j : Nat} {m2 : DialRequest}
    (hlt : i < dAtA.length) (hs : DialRequest.unmarshalStep dAtA i m = .ok (j, m2)) :
    DialRequest.unmarshalLoop dAtA i m = DialRequest.unmarshalLoop dAtA j m2 := by
  rw [DialRequest.unmarshalLoop]
  rw [dif_pos hlt]
  split
  · rename_i e heq
    rw [hs] at heq
    exact Except.noConfusion heq
  · rename_i j2 m22 heq
    rw [hs] at heq
    injection heq with heq2
    injection heq2 with hj hm
    rw [hj, hm]

theorem DialRequest.loop_error_dr {dAtA : List Nat} {i : Nat} {m : DialRequest} {e : DErr}
    (hlt : i < dAtA.length) (hs : DialRequest.unmarshalStep dAtA i m = .error e) :
    DialRequest.unmarshalLoop dAtA i m = .error e := by
  rw [DialRequest.unmarshalLoop]
  rw [dif_pos hlt]
  split
  · rename_i e2 heq
    rw [hs] at heq
    injection heq with he
    rw [he]
  · rename_i j2 m22 heq
    rw [hs] at heq
    exact Except.noConfusion heq

theorem DialRequest.loop_end_dr {dAtA : List Nat} {m : DialRequest} :
    DialRequest.unmarshalLoop dAtA dAtA.length m = .ok m := by
  rw [DialRequest.unmarshalLoop]
  rw [dif_neg (lt_irrefl _), if_neg (lt_irrefl _)]

theorem Data.loop_continue_data {dAtA : List Nat} {i : Nat} {m : Data} {j : Nat} {m2 : Data}
    (hlt : i < dAtA.length) (hs : Data.unmarshalStep dAtA i m = .ok (j, m2)) :
    Data.unmarshalLoop dAtA i m = Data.unmarshalLoop dAtA j m2 := by
  rw [Data.unmarshalLoop]
  rw [dif_pos hlt]
  split
  · rename_i e heq
    rw [hs] at heq
    exact Except.noConfusion heq
  · rename_i j2 m22 heq
    rw [hs] at heq
    injection heq with heq2
    injection heq2 with hj hm
    rw [hj, hm]

theorem Data.loop_error_data {dAtA : List Nat} {i : Nat} {m : Data} {e : DErr}
    (hlt : i < dAtA.length) (hs : Data.unmarshalStep dAtA i m = .error e) :
    Data.unmarshalLoop dAtA i m = .error e := by
  rw [Data.unmarshalLoop]
  rw [dif_pos hlt]
  split
  · rename_i e2 heq
    rw [hs] at heq
    injection heq with he
    rw [he]
  · rename_i j2 m22 heq
    rw [hs] at heq
    exact Except.noConfusion heq

theorem Data.loop_end_data {dAtA : List Nat} {m : Data} :
    Data.unmarshalLoop dAtA dAtA.length m = .ok m := by
  rw [Data.unmarshalLoop]
  rw [dif_neg (lt_irrefl _), if_neg (lt_irrefl _)]

theorem Frame.loop_continue_frame {dAtA : List Nat} {i : Nat} {m : Frame} {j : Nat} {m2 : Frame}
    (hlt : i < dAtA.length) (hs : Frame.unmarshalStep dAtA i m = .ok (j, m2)) :
    Frame.unmarshalLoop dAtA i m = Frame.unmarshalLoop dAtA j m2 := by
  rw [Frame.unmarshalLoop]
  rw [dif_pos hlt]
  split
  · rename_i e heq
    rw [hs] at heq
    exact Except.noConfusion heq
  · rename_i j2 m22 heq
    rw [hs] at heq
    injection heq with heq2
    injection heq2 with hj hm
    rw [hj, hm]

theorem Frame.loop_error_frame {dAtA : List Nat} {i : Nat} {m : Frame} {e : DErr}
    (hlt : i < dAtA.length) (hs : Frame.unmarshalStep dAtA i m = .error e) :
    Frame.unmarshalLoop dAtA i m = .error e := by
  rw [Frame.unmarshalLoop]
  rw [dif_pos hlt]
  split
  · rename_i e2 heq
    rw [hs] at heq
    injection heq with he
    rw [he]
  · rename_i j2 m22 heq
    rw [hs] at heq
    exact Except.noConfusion heq

theorem Frame.loop_end_frame {dAtA : List Nat} {m : Frame} :
    Frame.unmarshalLoop dAtA dAtA.length m = .ok m := by
  rw [Frame.unmarshalLoop]
  rw [dif_neg (lt_irrefl _), if_neg (lt_irrefl _)]

/-! Step lemmas: what one loop iteration does on a well-formed field
encoding sitting at the current index. -/

theorem Addr.step_network {dAtA : List Nat} {i : Nat} {m : Addr} {s rest : List Nat}
    (hd : dAtA.drop i = lenField 0xa s ++ rest)
    (hL : s.length < 2 ^ 63)
    (hp : i + 1 + sovTunnel s.length + s.length < 2 ^ 63) :
    Addr.unmarshalStep dAtA i m =
      .ok (i + 1 + sovTunnel s.length + s.length, { m with Network := s }) := by
  have hdc : dAtA.drop i = 0xa :: (encodeVarintTunnel s.length ++ (s ++ rest)) := by
    simpa [lenField, List.append_assoc] using hd
  have h1 := readVarint_byte (by norm_num) hdc
  have hd1 : dAtA.drop (i + 1) = encodeVarintTunnel s.length ++ (s ++ rest) :=
    drop_succ_of_drop_cons hdc
  have h2 := readVarint_enc0 (v := s.length) (by push_cast; omega) hd1
  have hd2 : dAtA.drop (i + 1 + sovTunnel s.length) = s ++ rest := by
    have := drop_append_shift hd1
    rwa [encodeVarint_length] at this
  have hilt : i < dAtA.length := drop_cons_lt hdc
  have hlen : dAtA.length = i + 1 + sovTunnel s.length + s.length + rest.length := by
    have h3 := drop_append_lengths hd1 (by omega)
    rw [List.length_append, encodeVarint_length] at h3
    omega
  have htake : List.take s.length (List.drop (i + 1 + sovTunnel s.length) dAtA) = s :=
    drop_append_take hd2
  unfold Addr.unmarshalStep
  dsimp only
  rw [h1]
  dsimp only
  rw [if_neg (by decide : ¬ ((10:Nat) % 8 = 4))]
  rw [if_neg (by decide : ¬ (((10:Nat) >>> 3) % 2 ^ 32 = 0 ∨ 2 ^ 31 ≤ ((10:Nat) >>> 3) % 2 ^ 32))]
  rw [if_pos (by decide : ((10:Nat) >>> 3) % 2 ^ 32 = 1)]
  rw [if_neg (by decide : ¬ ((10:Nat) % 8 ≠ 2))]
  rw [h2]
  dsimp only
  rw [if_neg (by omega : ¬ (2 ^ 63 ≤ s.length))]
  rw [if_neg (by omega : ¬ (2 ^ 63 ≤ i + 1 + sovTunnel s.length + s.length))]
  rw [if_neg (by omega : ¬ (dAtA.length < i + 1 + sovTunnel s.length + s.length))]
  rw [htake]

theorem Addr.step_address {dAtA : List Nat} {i : Nat} {m : Addr} {s rest : List Nat}
    (hd : dAtA.drop i = lenField 0x12 s ++ rest)
    (hL : s.length < 2 ^ 63)
    (hp : i + 1 + sovTunnel s.length + s.length < 2 ^ 63) :
    Addr.unmarshalStep dAtA i m =
      .ok (i + 1 + sovTunnel s.length + s.length, { m with Address := s }) := by
  have hdc : dAtA.drop i = 0x12 :: (encodeVarintTunnel s.length ++ (s ++ rest)) := by
    simpa [lenField, List.append_assoc] using hd
  have h1 := readVarint_byte (by norm_num) hdc
  have hd1 : dAtA.drop (i + 1) = encodeVarintTunnel s.length ++ (s ++ rest) :=
    drop_succ_of_drop_cons hdc
  have h2 := readVarint_enc0 (v := s.length) (by push_cast; omega) hd1
  have hd2 : dAtA.drop (i + 1 + sovTunnel s.length) = s ++ rest := by
    have := drop_append_shift hd1
    rwa [encodeVarint_length] at this
  have hilt : i < dAtA.length := drop_cons_lt hdc
  have hlen : dAtA.length = i + 1 + sovTunnel s.length + s.length + rest.length := by
    have h3 := drop_append_lengths hd1 (by omega)
    rw [List.length_append, encodeVarint_length] at h3
    omega
  have htake : List.take s.length (List.drop (i + 1 + sovTunnel s.length) dAtA) = s :=
    drop_append_take hd2
  unfold Addr.unmarshalStep
  dsimp only
  rw [h1]
  dsimp only
  rw [if_neg (by decide : ¬ ((18:Nat) % 8 = 4))]
  rw [if_neg (by decide : ¬ (((18:Nat) >>> 3) % 2 ^ 32 = 0 ∨ 2 ^ 31 ≤ ((18:Nat) >>> 3) % 2 ^ 32))]
  rw [if_neg (by decide : ¬ (((18:Nat) >>> 3) % 2 ^ 32 = 1))]
  rw [if_pos (by decide : ((18:Nat) >>> 3) % 2 ^ 32 = 2)]
  rw [if_neg (by decide : ¬ ((18:Nat) % 8 ≠ 2))]
  rw [h2]
  dsimp only
  rw [if_neg (by omega : ¬ (2 ^ 63 ≤ s.length))]
  rw [if_neg (by omega : ¬ (2 ^ 63 ≤ i + 1 + sovTunnel s.length + s.length))]
  rw [if_neg (by omega : ¬ (dAtA.length < i + 1 + sovTunnel s.length + s.length))]
  rw [htake]

theorem Data.step_bytes {dAtA : List Nat} {i : Nat} {m : Data} {s rest : List Nat}
    (hd : dAtA.drop i = lenField 0xa s ++ rest)
    (hL : s.length < 2 ^ 63)
    (hp : i + 1 + sovTunnel s.length + s.length < 2 ^ 63) :
    Data.unmarshalStep dAtA i m =
      .ok (i + 1 + sovTunnel s.length + s.length, { m with Bytes := s }) := by
  have hdc : dAtA.drop i = 0xa :: (encodeVarintTunnel s.length ++ (s ++ rest)) := by
    simpa [lenField, List.append_assoc] using hd
  have h1 := readVarint_byte (by norm_num) hdc
  have hd1 : dAtA.drop (i + 1) = encodeVarintTunnel s.length ++ (s ++ rest) :=
    drop_succ_of_drop_cons hdc
  have h2 := readVarint_enc0 (v := s.length) (by push_cast; omega) hd1
  have hd2 : dAtA.drop (i + 1 + sovTunnel s.length) = s ++ rest := by
    have := drop_append_shift hd1
    rwa [encodeVarint_length] at this
  have hilt : i < dAtA.length := drop_cons_lt hdc
  have hlen : dAtA.length = i + 1 + sovTunnel s.length + s.length + rest.length := by
    have h3 := drop_append_lengths hd1 (by omega)
    rw [List.length_append, encodeVarint_length] at h3
    omega
  have htake : List.take s.length (List.drop (i + 1 + sovTunnel s.length) dAtA) = s :=
    drop_append_take hd2
  unfold Data.unmarshalStep
  dsimp only
  rw [h1]
  dsimp only
  rw [if_neg (by decide : ¬ ((10:Nat) % 8 = 4))]
  rw [if_neg (by decide : ¬ (((10:Nat) >>> 3) % 2 ^ 32 = 0 ∨ 2 ^ 31 ≤ ((10:Nat) >>> 3) % 2 ^ 32))]
  rw [if_pos (by decide : ((10:Nat) >>> 3) % 2 ^ 32 = 1)]
  rw [if_neg (by decide : ¬ ((10:Nat) % 8 ≠ 2))]
  rw [h2]
  dsimp only
  rw [if_neg (by omega : ¬ (2 ^ 63 ≤ s.length))]
  rw [if_neg (by omega : ¬ (2 ^ 63 ≤ i + 1 + sovTunnel s.length + s.length))]
  rw [if_neg (by omega : ¬ (dAtA.length < i + 1 + sovTunnel s.length + s.length))]
  rw [htake]

theorem DialRequest.step_serverID {dAtA : List Nat} {i : Nat} {m : DialRequest}
    {s rest : List Nat}
    (hd : dAtA.drop i = lenField 0xa s ++ rest)
    (hL : s.length < 2 ^ 63)
    (hp : i + 1 + sovTunnel s.length + s.length < 2 ^ 63) :
    DialRequest.unmarshalStep dAtA i m =
      .ok (i + 1 + sovTunnel s.length + s.length, { m with ServerID := s }) := by
  have hdc : dAtA.drop i = 0xa :: (encodeVarintTunnel s.length ++ (s ++ rest)) := by
    simpa [lenField, List.append_assoc] using hd
  have h1 := readVarint_byte (by norm_num) hdc
  have hd1 : dAtA.drop (i + 1) = encodeVarintTunnel s.length ++ (s ++ rest) :=
    drop_succ_of_drop_cons hdc
  have h2 := readVarint_enc0 (v := s.length) (by push_cast; omega) hd1
  have hd2 : dAtA.drop (i + 1 + sovTunnel s.length) = s ++ rest := by
    have := drop_append_shift hd1
    rwa [encodeVarint_length] at this
  have hilt : i < dAtA.length := drop_cons_lt hdc
  have hlen : dAtA.length = i + 1 + sovTunnel s.length + s.length + rest.length := by
    have h3 := drop_append_lengths hd1 (by omega)
    rw [List.length_append, encodeVarint_length] at h3
    omega
  have htake : List.take s.length (List.drop (i + 1 + sovTunnel s.length) dAtA) = s :=
    drop_append_take hd2
  unfold DialRequest.unmarshalStep
  dsimp only
  rw [h1]
  dsimp only
  rw [if_neg (by decide : ¬ ((10:Nat) % 8 = 4))]
  rw [if_neg (by decide : ¬ (((10:Nat) >>> 3) % 2 ^ 32 = 0 ∨ 2 ^ 31 ≤ ((10:Nat) >>> 3) % 2 ^ 32))]
  rw [if_pos (by decide : ((10:Nat) >>> 3) % 2 ^ 32 = 1)]
  rw [if_neg (by decide : ¬ ((10:Nat) % 8 ≠ 2))]
  rw [h2]
  dsimp only
  rw [if_neg (by omega : ¬ (2 ^ 63 ≤ s.length))]
  rw [if_neg (by omega : ¬ (2 ^ 63 ≤ i + 1 + sovTunnel s.length + s.length))]
  rw [if_neg (by omega : ¬ (dAtA.length < i + 1 + sovTunnel s.length + s.length))]
  rw [htake]

theorem DialRequest.step_connType {dAtA : List Nat} {i : Nat} {m : DialRequest}
    {s rest : List Nat}
    (hd : dAtA.drop i = lenField 0x12 s ++ rest)
    (hL : s.length < 2 ^ 63)
    (hp : i + 1 + sovTunnel s.length + s.length < 2 ^ 63) :
    DialRequest.unmarshalStep dAtA i m =
      .ok (i + 1 + sovTunnel s.length + s.length, { m with ConnType := s }) := by
  have hdc : dAtA.drop i = 0x12 :: (encodeVarintTunnel s.length ++ (s ++ rest)) := by
    simpa [lenField, List.append_assoc] using hd
  have h1 := readVarint_byte (by norm_num) hdc
  have hd1 : dAtA.drop (i + 1) = encodeVarintTunnel s.length ++ (s ++ rest) :=
    drop_succ_of_drop_cons hdc
  have h2 := readVarint_enc0 (v := s.length) (by push_cast; omega) hd1
  have hd2 : dAtA.drop (i + 1 + sovTunnel s.length) = s ++ rest := by
    have := drop_append_shift hd1
    rwa [encodeVarint_length] at this
  have hilt : i < dAtA.length := drop_cons_lt hdc
  have hlen : dAtA.length = i + 1 + sovTunnel s.length + s.length + rest.length := by
    have h3 := drop_append_lengths hd1 (by omega)
    rw [List.length_append, encodeVarint_length] at h3
    omega
  have htake : List.take s.length (List.drop (i + 1 + sovTunnel s.length) dAtA) = s :=
    drop_append_take hd2
  unfold DialRequest.unmarshalStep
  dsimp only
  rw [h1]
  dsimp only
  rw [if_neg (by decide : ¬ ((18:Nat) % 8 = 4))]
  rw [if_neg (by decide : ¬ (((18:Nat) >>> 3) % 2 ^ 32 = 0 ∨ 2 ^ 31 ≤ ((18:Nat) >>> 3) % 2 ^ 32))]
  rw [if_neg (by decide : ¬ (((18:Nat) >>> 3) % 2 ^ 32 = 1))]
  rw [if_pos (by decide : ((18:Nat) >>> 3) % 2 ^ 32 = 2)]
  rw [if_neg (by decide : ¬ ((18:Nat) % 8 ≠ 2))]
  rw [h2]
  dsimp only
  rw [if_neg (by omega : ¬ (2 ^ 63 ≤ s.length))]
  rw [if_neg (by omega : ¬ (2 ^ 63 ≤ i + 1 + sovTunnel s.length + s.length))]
  rw [if_neg (by omega : ¬ (dAtA.length < i + 1 + sovTunnel s.length + s.length))]
  rw [htake]

theorem DialRequest.step_to {dAtA : List Nat} {i : Nat} {m : DialRequest}
    {sub rest : List Nat} {a : Addr}
    (hd : dAtA.drop i = lenField 0x1a sub ++ rest)
    (hL : sub.length < 2 ^ 63)
    (hp : i + 1 + sovTunnel sub.length + sub.length < 2 ^ 63)
    (ha : Addr.Unmarshal
        (m.To.getD { Network := [], Address := [], XXX_unrecognized := [] }) sub = .ok a) :
    DialRequest.unmarshalStep dAtA i m =
      .ok (i + 1 + sovTunnel sub.length + sub.length, { m with To := some a }) := by
  have hdc : dAtA.drop i = 0x1a :: (encodeVarintTunnel sub.length ++ (sub ++ rest)) := by
    simpa [lenField, List.append_assoc] using hd
  have h1 := readVarint_byte (by norm_num) hdc
  have hd1 : dAtA.drop (i + 1) = encodeVarintTunnel sub.length ++ (sub ++ rest) :=
    drop_succ_of_drop_cons hdc
  have h2 := readVarint_enc0 (v := sub.length) (by push_cast; omega) hd1
  have hd2 : dAtA.drop (i + 1 + sovTunnel sub.length) = sub ++ rest := by
    have := drop_append_shift hd1
    rwa [encodeVarint_length] at this
  have hilt : i < dAtA.length := drop_cons_lt hdc
  have hlen : dAtA.length = i + 1 + sovTunnel sub.length + sub.length + rest.length := by
    have h3 := drop_append_lengths hd1 (by omega)
    rw [List.length_append, encodeVarint_length] at h3
    omega
  have htake : List.take sub.length (List.drop (i + 1 + sovTunnel sub.length) dAtA) = sub :=
    drop_append_take hd2
  unfold DialRequest.unmarshalStep
  dsimp only
  rw [h1]
  dsimp only
  rw [if_neg (by decide : ¬ ((26:Nat) % 8 = 4))]
  rw [if_neg (by decide : ¬ (((26:Nat) >>> 3) % 2 ^ 32 = 0 ∨ 2 ^ 31 ≤ ((26:Nat) >>> 3) % 2 ^ 32))]
  rw [if_neg (by decide : ¬ (((26:Nat) >>> 3) % 2 ^ 32 = 1))]
  rw [if_neg (by decide : ¬ (((26:Nat) >>> 3) % 2 ^ 32 = 2))]
  rw [if_pos (by decide : ((26:Nat) >>> 3) % 2 ^ 32 = 3)]
  rw [if_neg (by decide : ¬ ((26:Nat) % 8 ≠ 2))]
  rw [h2]
  dsimp only
  rw [if_neg (by omega : ¬ (2 ^ 63 ≤ sub.length))]
  rw [if_neg (by omega : ¬ (2 ^ 63 ≤ i + 1 + sovTunnel sub.length + sub.length))]
  rw [if_neg (by omega : ¬ (dAtA.length < i + 1 + sovTunnel sub.length + sub.length))]
  rw [htake, ha]

theorem Frame.step_dialRequest {dAtA : List Nat} {i : Nat} {m : Frame}
    {sub rest : List Nat} {v : DialRequest}
    (hd : dAtA.drop i = lenField 0xa sub ++ rest)
    (hL : sub.length < 2 ^ 63)
    (hp : i + 1 + sovTunnel sub.length + sub.length < 2 ^ 63)
    (hv : DialRequest.Unmarshal
        { ServerID := [], ConnType := [], To := none, XXX_unrecognized := [] } sub = .ok v) :
    Frame.unmarshalStep dAtA i m =
      .ok (i + 1 + sovTunnel sub.length + sub.length,
        { m with Message := some (.dialRequest (some v)) }) := by
  have hdc : dAtA.drop i = 0xa :: (encodeVarintTunnel sub.length ++ (sub ++ rest)) := by
    simpa [lenField, List.append_assoc] using hd
  have h1 := readVarint_byte (by norm_num) hdc
  have hd1 : dAtA.drop (i + 1) = encodeVarintTunnel sub.length ++ (sub ++ rest) :=
    drop_succ_of_drop_cons hdc
  have h2 := readVarint_enc0 (v := sub.length) (by push_cast; omega) hd1
  have hd2 : dAtA.drop (i + 1 + sovTunnel sub.length) = sub ++ rest := by
    have := drop_append_shift hd1
    rwa [encodeVarint_length] at this
  have hilt : i < dAtA.length := drop_cons_lt hdc
  have hlen : dAtA.length = i + 1 + sovTunnel sub.length + sub.length + rest.length := by
    have h3 := drop_append_lengths hd1 (by omega)
    rw [List.length_append, encodeVarint_length] at h3
    omega
  have htake : List.take sub.length (List.drop (i + 1 + sovTunnel sub.length) dAtA) = sub :=
    drop_append_take hd2
  unfold Frame.unmarshalStep
  dsimp only
  rw [h1]
  dsimp only
  rw [if_neg (by decide : ¬ ((10:Nat) % 8 = 4))]
  rw [if_neg (by decide : ¬ (((10:Nat) >>> 3) % 2 ^ 32 = 0 ∨ 2 ^ 31 ≤ ((10:Nat) >>> 3) % 2 ^ 32))]
  rw [if_pos (by decide : ((10:Nat) >>> 3) % 2 ^ 32 = 1)]
  rw [if_neg (by decide : ¬ ((10:Nat) % 8 ≠ 2))]
  rw [h2]
  dsimp only
  rw [if_neg (by omega : ¬ (2 ^ 63 ≤ sub.length))]
  rw [if_neg (by omega : ¬ (2 ^ 63 ≤ i + 1 + sovTunnel sub.length + sub.length))]
  rw [if_neg (by omega : ¬ (dAtA.length < i + 1 + sovTunnel sub.length + sub.length))]
  rw [htake, hv]

theorem Frame.step_data {dAtA : List Nat} {i : Nat} {m : Frame}
    {sub rest : List Nat} {v : Data}
    (hd : dAtA.drop i = lenField 0x12 sub ++ rest)
    (hL : sub.length < 2 ^ 63)
    (hp : i + 1 + sovTunnel sub.length + sub.length < 2 ^ 63)
    (hv : Data.Unmarshal { Bytes := [], XXX_unrecognized := [] } sub = .ok v) :
    Frame.unmarshalStep dAtA i m =
      .ok (i + 1 + sovTunnel sub.length + sub.length,
        { m with Message := some (.data (some v)) }) := by
  have hdc : dAtA.drop i = 0x12 :: (encodeVarintTunnel sub.length ++ (sub ++ rest)) := by
    simpa [lenField, List.append_assoc] using hd
  have h1 := readVarint_byte (by norm_num) hdc
  have hd1 : dAtA.drop (i + 1) = encodeVarintTunnel sub.length ++ (sub ++ rest) :=
    drop_succ_of_drop_cons hdc
  have h2 := readVarint_enc0 (v := sub.length) (by push_cast; omega) hd1
  have hd2 : dAtA.drop (i + 1 + sovTunnel sub.length) = sub ++ rest := by
    have := drop_append_shift hd1
    rwa [encodeVarint_length] at this
  have hilt : i < dAtA.length := drop_cons_lt hdc
  have hlen : dAtA.length = i + 1 + sovTunnel sub.length + sub.length + rest.length := by
    have h3 := drop_append_lengths hd1 (by omega)
    rw [List.length_append, encodeVarint_length] at h3
    omega
  have htake : List.take sub.length (List.drop (i + 1 + sovTunnel sub.length) dAtA) = sub :=
    drop_append_take hd2
  unfold Frame.unmarshalStep
  dsimp only
  rw [h1]
  dsimp only
  rw [if_neg (by decide : ¬ ((18:Nat) % 8 = 4))]
  rw [if_neg (by decide : ¬ (((18:Nat) >>> 3) % 2 ^ 32 = 0 ∨ 2 ^ 31 ≤ ((18:Nat) >>> 3) % 2 ^ 32))]
  rw [if_neg (by decide : ¬ (((18:Nat) >>> 3) % 2 ^ 32 = 1))]
  rw [if_pos (by decide : ((18:Nat) >>> 3) % 2 ^ 32 = 2)]
  rw [if_neg (by decide : ¬ ((18:Nat) % 8 ≠ 2))]
  rw [h2]
  dsimp only
  rw [if_neg (by omega : ¬ (2 ^ 63 ≤ sub.length))]
  rw [if_neg (by omega : ¬ (2 ^ 63 ≤ i + 1 + sovTunnel sub.length + sub.length))]
  rw [if_neg (by omega : ¬ (dAtA.length < i + 1 + sovTunnel sub.length + sub.length))]
  rw [htake, hv]

/-! Segment lemmas: a loop absorbs the encoding of one (possibly absent)
field, and the resulting message carries that field value. -/

theorem sov_zero : sovTunnel 0 = 1 := sov_small (by norm_num)

theorem segLen (t : Nat) (c : List Nat) :
    (if 0 < c.length then lenField t c else []).length =
      if 0 < c.length then 1 + sovTunnel c.length + c.length else 0 := by
  by_cases h : 0 < c.length
  · rw [if_pos h, if_pos h, lenField_length]
  · rw [if_neg h, if_neg h]
    rfl

theorem Addr.seg_network {dAtA : List Nat} {i : Nat} {m : Addr} {nw rest : List Nat}
    (hm : m.Network = [])
    (hd : dAtA.drop i = (if 0 < nw.length then lenField 0xa nw else []) ++ rest)
    (hL : 0 < nw.length → nw.length < 2 ^ 63)
    (hp : 0 < nw.length → i + 1 + sovTunnel nw.length + nw.length < 2 ^ 63) :
    Addr.unmarshalLoop dAtA i m =
      Addr.unmarshalLoop dAtA
        (i + (if 0 < nw.length then lenField 0xa nw else []).length)
        { m with Network := nw } := by
  rcases Nat.eq_zero_or_pos nw.length with h0 | h0
  · have hnil : nw = [] := List.length_eq_zero.1 h0
    rw [if_neg (by omega)]
    have hmm2 : { m with Network := nw } = m := by
      rcases m with ⟨mn, ma, mu⟩
      simp only at hm
      rw [hnil, ← hm]
    rw [hmm2]
    simp
  · rw [if_pos h0] at hd ⊢
    have hstep := Addr.step_network (m := m) hd (hL h0) (hp h0)
    have hdc : dAtA.drop i = 0xa :: (encodeVarintTunnel nw.length ++ (nw ++ rest)) := by
      simpa [lenField, List.append_assoc] using hd
    have hlt : i < dAtA.length := drop_cons_lt hdc
    rw [show i + (lenField 0xa nw).length = i + 1 + sovTunnel nw.length + nw.length from by
      rw [lenField_length]; omega]
    exact Addr.loop_continue_addr hlt hstep

theorem Addr.seg_address {dAtA : List Nat} {i : Nat} {m : Addr} {ad rest : List Nat}
    (hm : m.Address = [])
    (hd : dAtA.drop i = (if 0 < ad.length then lenField 0x12 ad else []) ++ rest)
    (hL : 0 < ad.length → ad.length < 2 ^ 63)
    (hp : 0 < ad.length → i + 1 + sovTunnel ad.length + ad.length < 2 ^ 63) :
    Addr.unmarshalLoop dAtA i m =
      Addr.unmarshalLoop dAtA
        (i + (if 0 < ad.length then lenField 0x12 ad else []).length)
        { m with Address := ad } := by
  rcases Nat.eq_zero_or_pos ad.length with h0 | h0
  · have hnil : ad = [] := List.length_eq_zero.1 h0
    rw [if_neg (by omega)]
    have hmm2 : { m with Address := ad } = m := by
      rcases m with ⟨mn, ma, mu⟩
      simp only at hm
      rw [hnil, ← hm]
    rw [hmm2]
    simp
  · rw [if_pos h0] at hd ⊢
    have hstep := Addr.step_address (m := m) hd (hL h0) (hp h0)
    have hdc : dAtA.drop i = 0x12 :: (encodeVarintTunnel ad.length ++ (ad ++ rest)) := by
      simpa [lenField, List.append_assoc] using hd
    have hlt : i < dAtA.length := drop_cons_lt hdc
    rw [show i + (lenField 0x12 ad).length = i + 1 + sovTunnel ad.length + ad.length from by
      rw [lenField_length]; omega]
    exact Addr.loop_continue_addr hlt hstep

/-- Decoding the bytes Addr emits reproduces the Addr value field for
field, provided it carries no unrecognized bytes. -/
theorem Addr.decode_enc_addr {a : Addr} (hu : a.XXX_unrecognized = []) (hsz : a.Size < 2 ^ 63) :
    Addr.Unmarshal { Network := [], Address := [], XXX_unrecognized := [] } a.enc = .ok a := by
  obtain ⟨nw, ad, u⟩ := a
  simp only at hu
  subst hu
  have hb : (if 0 < nw.length then 1 + nw.length + sovTunnel nw.length else 0) +
      (if 0 < ad.length then 1 + ad.length + sovTunnel ad.length else 0) + 0 < 2 ^ 63 := by
    simpa [Addr.Size] using hsz
  have hL1 : 0 < nw.length → nw.length < 2 ^ 63 := by
    intro h
    have hb1 := hb
    rw [if_pos h] at hb1
    omega
  have hp1 : 0 < nw.length → 0 + 1 + sovTunnel nw.length + nw.length < 2 ^ 63 := by
    intro h
    have hb1 := hb
    rw [if_pos h] at hb1
    omega
  have hL2 : 0 < ad.length → ad.length < 2 ^ 63 := by
    intro h
    have hb1 := hb
    rw [if_pos h] at hb1
    rcases Nat.eq_zero_or_pos nw.length with h0 | h0
    · rw [if_neg (by omega)] at hb1
      omega
    · rw [if_pos h0] at hb1
      omega
  have hE1 : (if 0 < nw.length then lenField 0xa nw else []).length =
      if 0 < nw.length then 1 + sovTunnel nw.length + nw.length else 0 := segLen _ _
  have hp2 : 0 < ad.length →
      0 + (if 0 < nw.length then lenField 0xa nw else []).length +
        1 + sovTunnel ad.length + ad.length < 2 ^ 63 := by
    intro h
    have hb1 := hb
    rw [if_pos h] at hb1
    rw [hE1]
    rcases Nat.eq_zero_or_pos nw.length with h0 | h0
    · rw [if_neg (by omega)] at hb1
      rw [if_neg (by omega)]
      omega
    · rw [if_pos h0] at hb1
      rw [if_pos h0]
      omega
  unfold Addr.Unmarshal
  have hd1 : (Addr.enc ⟨nw, ad, []⟩).drop 0 =
      (if 0 < nw.length then lenField 0xa nw else []) ++
        (if 0 < ad.length then lenField 0x12 ad else []) := by
    simp [Addr.enc]
  rw [Addr.seg_network (m := { Network := [], Address := [], XXX_unrecognized := [] })
    rfl hd1 hL1 hp1]
  have hd2 : (Addr.enc ⟨nw, ad, []⟩).drop
      (0 + (if 0 < nw.length then lenField 0xa nw else []).length) =
      (if 0 < ad.length then lenField 0x12 ad else []) ++ [] := by
    rw [List.append_nil]
    exact drop_append_shift hd1
  rw [Addr.seg_address (m := { Network := nw, Address := [], XXX_unrecognized := [] })
    rfl hd2 hL2 hp2]
  rw [show 0 + (if 0 < nw.length then lenField 0xa nw else []).length +
      (if 0 < ad.length then lenField 0x12 ad else []).length =
      (Addr.enc ⟨nw, ad, []⟩).length from by simp [Addr.enc]; try omega]
  exact Addr.loop_end_addr

theorem DialRequest.seg_serverID {dAtA : List Nat} {i : Nat} {m : DialRequest}
    {s rest : List Nat}
    (hm : m.ServerID = [])
    (hd : dAtA.drop i = (if 0 < s.length then lenField 0xa s else []) ++ rest)
    (hL : 0 < s.length → s.length < 2 ^ 63)
    (hp : 0 < s.length → i + 1 + sovTunnel s.length + s.length < 2 ^ 63) :
    DialRequest.unmarshalLoop dAtA i m =
      DialRequest.unmarshalLoop dAtA
        (i + (if 0 < s.length then lenField 0xa s else []).length)
        { m with ServerID := s } := by
  rcases Nat.eq_zero_or_pos s.length with h0 | h0
  · have hnil : s = [] := List.length_eq_zero.1 h0
    rw [if_neg (by omega)]
    have hmm2 : { m with ServerID := s } = m := by
      rcases m with ⟨ms, mc, mt, mu⟩
      simp only at hm
      rw [hnil, ← hm]
    rw [hmm2]
    simp
  · rw [if_pos h0] at hd ⊢
    have hstep := DialRequest.step_serverID (m := m) hd (hL h0) (hp h0)
    have hdc : dAtA.drop i = 0xa :: (encodeVarintTunnel s.length ++ (s ++ rest)) := by
      simpa [lenField, List.append_assoc] using hd
    have hlt : i < dAtA.length := drop_cons_lt hdc
    rw [show i + (lenField 0xa s).length = i + 1 + sovTunnel s.length + s.length from by
      rw [lenField_length]; omega]
    exact DialRequest.loop_continue_dr hlt hstep

theorem DialRequest.seg_connType {dAtA : List Nat} {i : Nat} {m : DialRequest}
    {s rest : List Nat}
    (hm : m.ConnType = [])
    (hd : dAtA.drop i = (if 0 < s.length then lenField 0x12 s else []) ++ rest)
    (hL : 0 < s.length → s.length < 2 ^ 63)
    (hp : 0 < s.length → i + 1 + sovTunnel s.length + s.length < 2 ^ 63) :
    DialRequest.unmarshalLoop dAtA i m =
      DialRequest.unmarshalLoop dAtA
        (i + (if 0 < s.length then lenField 0x12 s else []).length)
        { m with ConnType := s } := by
  rcases Nat.eq_zero_or_pos s.length with h0 | h0
  · have hnil : s = [] := List.length_eq_zero.1 h0
    rw [if_neg (by omega)]
    have hmm2 : { m with ConnType := s } = m := by
      rcases m with ⟨ms, mc, mt, mu⟩
      simp only at hm
      rw [hnil, ← hm]
    rw [hmm2]
    simp
  · rw [if_pos h0] at hd ⊢
    have hstep := DialRequest.step_connType (m := m) hd (hL h0) (hp h0)
    have hdc : dAtA.drop i = 0x12 :: (encodeVarintTunnel s.length ++ (s ++ rest)) := by
      simpa [lenField, List.append_assoc] using hd
    have hlt : i < dAtA.length := drop_cons_lt hdc
    rw [show i + (lenField 0x12 s).length = i + 1 + sovTunnel s.length + s.length from by
      rw [lenField_length]; omega]
    exact DialRequest.loop_continue_dr hlt hstep

theorem DialRequest.seg_to {dAtA : List Nat} {i : Nat} {m : DialRequest} {t : Option Addr}
    {rest : List Nat}
    (hm : m.To = none)
    (hd : dAtA.drop i = optAddrField t ++ rest)
    (hwf : ∀ a, t = some a → a.XXX_unrecognized = [] ∧ a.Size < 2 ^ 63)
    (hp : ∀ a, t = some a → i + 1 + sovTunnel a.Size + a.Size < 2 ^ 63) :
    DialRequest.unmarshalLoop dAtA i m =
      DialRequest.unmarshalLoop dAtA (i + (optAddrField t).length) { m with To := t } := by
  cases t with
  | none =>
    have hmm2 : { m with To := none } = m := by
      rcases m with ⟨ms, mc, mt, mu⟩
      simp only at hm
      rw [← hm]
    rw [hmm2]
    simp [optAddrField]
  | some a =>
    simp only [optAddrField] at hd ⊢
    obtain ⟨hau, hasz⟩ := hwf a rfl
    have ha : Addr.Unmarshal
        (m.To.getD { Network := [], Address := [], XXX_unrecognized := [] }) a.enc = .ok a := by
      rw [hm, Option.getD_none]
      exact Addr.decode_enc_addr hau hasz
    have hL2 : a.enc.length < 2 ^ 63 := by
      rw [Addr.enc_length_addr]
      exact hasz
    have hp2 : i + 1 + sovTunnel a.enc.length + a.enc.length < 2 ^ 63 := by
      rw [Addr.enc_length_addr]
      exact hp a rfl
    have hstep := DialRequest.step_to (m := m) hd hL2 hp2 ha
    have hdc : dAtA.drop i = 0x1a :: (encodeVarintTunnel a.enc.length ++ (a.enc ++ rest)) := by
      simpa [lenField, List.append_assoc] using hd
    have hlt : i < dAtA.length := drop_cons_lt hdc
    rw [show i + (lenField 0x1a a.enc).length =
        i + 1 + sovTunnel a.enc.length + a.enc.length from by
      rw [lenField_length]; omega]
    exact DialRequest.loop_continue_dr hlt hstep

/-- Decoding the bytes DialRequest emits reproduces the DialRequest value
field for field, provided neither it nor its Addr carries unrecognized
bytes. -/
theorem DialRequest.decode_enc_dr {r : DialRequest}
    (hu : r.XXX_unrecognized = [])
    (hTo : ∀ a, r.To = some a → a.XXX_unrecognized = [])
    (hsz : r.Size < 2 ^ 63) :
    DialRequest.Unmarshal
      { ServerID := [], ConnType := [], To := none, XXX_unrecognized := [] } r.enc = .ok r := by
  obtain ⟨sid, ct, t, u⟩ := r
  simp only at hu hTo
  subst hu
  have henc := DialRequest.enc_length_dr ⟨sid, ct, t, []⟩
  simp only [DialRequest.enc, List.length_append, List.length_nil, Nat.add_zero] at henc
  have hL1 : 0 < sid.length → sid.length < 2 ^ 63 := by
    intro h
    have hE : (if 0 < sid.length then lenField 0xa sid else []).length =
        1 + sovTunnel sid.length + sid.length := by rw [segLen, if_pos h]
    omega
  have hp1 : 0 < sid.length → 0 + 1 + sovTunnel sid.length + sid.length < 2 ^ 63 := by
    intro h
    have hE : (if 0 < sid.length then lenField 0xa sid else []).length =
        1 + sovTunnel sid.length + sid.length := by rw [segLen, if_pos h]
    omega
  have hL2 : 0 < ct.length → ct.length < 2 ^ 63 := by
    intro h
    have hE : (if 0 < ct.length then lenField 0x12 ct else []).length =
        1 + sovTunnel ct.length + ct.length := by rw [segLen, if_pos h]
    omega
  have hp2 : 0 < ct.length →
      0 + (if 0 < sid.length then lenField 0xa sid else []).length +
        1 + sovTunnel ct.length + ct.length < 2 ^ 63 := by
    intro h
    have hE : (if 0 < ct.length then lenField 0x12 ct else []).length =
        1 + sovTunnel ct.length + ct.length := by rw [segLen, if_pos h]
    omega
  have hwf3 : ∀ a, t = some a → a.XXX_unrecognized = [] ∧ a.Size < 2 ^ 63 := by
    intro a ha
    subst ha
    refine ⟨hTo a rfl, ?_⟩
    have hE : (optAddrField (some a)).length = 1 + sovTunnel a.Size + a.Size := by
      simp only [optAddrField]
      rw [lenField_length, Addr.enc_length_addr]
    omega
  have hp3 : ∀ a, t = some a →
      0 + (if 0 < sid.length then lenField 0xa sid else []).length +
        (if 0 < ct.length then lenField 0x12 ct else []).length +
        1 + sovTunnel a.Size + a.Size < 2 ^ 63 := by
    intro a ha
    subst ha
    have hE : (optAddrField (some a)).length = 1 + sovTunnel a.Size + a.Size := by
      simp only [optAddrField]
      rw [lenField_length, Addr.enc_length_addr]
    omega
  unfold DialRequest.Unmarshal
  have hd1 : (DialRequest.enc ⟨sid, ct, t, []⟩).drop 0 =
      (if 0 < sid.length then lenField 0xa sid else []) ++
        ((if 0 < ct.length then lenField 0x12 ct else []) ++ optAddrField t) := by
    simp [DialRequest.enc]
  rw [DialRequest.seg_serverID
    (m := { ServerID := [], ConnType := [], To := none, XXX_unrecognized := [] })
    rfl hd1 hL1 hp1]
  have hd2 : (DialRequest.enc ⟨sid, ct, t, []⟩).drop
      (0 + (if 0 < sid.length then lenField 0xa sid else []).length) =
      (if 0 < ct.length then lenField 0x12 ct else []) ++ optAddrField t :=
    drop_append_shift hd1
  rw [DialRequest.seg_connType
    (m := { ServerID := sid, ConnType := [], To := none, XXX_unrecognized := [] })
    rfl hd2 hL2 hp2]
  have hd3 : (DialRequest.enc ⟨sid, ct, t, []⟩).drop
      (0 + (if 0 < sid.length then lenField 0xa sid else []).length +
        (if 0 < ct.length then lenField 0x12 ct else []).length) =
      optAddrField t ++ [] := by
    rw [List.append_nil]
    exact drop_append_shift hd2
  rw [DialRequest.seg_to
    (m := { ServerID := sid, ConnType := ct, To := none, XXX_unrecognized := [] })
    rfl hd3 hwf3 hp3]
  rw [show 0 + (if 0 < sid.length then lenField 0xa sid else []).length +
      (if 0 < ct.length then lenField 0x12 ct else []).length +
      (optAddrField t).length =
      (DialRequest.enc ⟨sid, ct, t, []⟩).length from by
    simp [DialRequest.enc]
    try omega]
  exact DialRequest.loop_end_dr

theorem Data.seg_bytes {dAtA : List Nat} {i : Nat} {m : Data} {s rest : List Nat}
    (hm : m.Bytes = [])
    (hd : dAtA.drop i = (if 0 < s.length then lenField 0xa s else []) ++ rest)
    (hL : 0 < s.length → s.length < 2 ^ 63)
    (hp : 0 < s.length → i + 1 + sovTunnel s.length + s.length < 2 ^ 63) :
    Data.unmarshalLoop dAtA i m =
      Data.unmarshalLoop dAtA
        (i + (if 0 < s.length then lenField 0xa s else []).length)
        { m with Bytes := s } := by
  rcases Nat.eq_zero_or_pos s.length with h0 | h0
  · have hnil : s = [] := List.length_eq_zero.1 h0
    rw [if_neg (by omega)]
    have hmm2 : { m with Bytes := s } = m := by
      rcases m with ⟨mb, mu⟩
      simp only at hm
      rw [hnil, ← hm]
    rw [hmm2]
    simp
  · rw [if_pos h0] at hd ⊢
    have hstep := Data.step_bytes (m := m) hd (hL h0) (hp h0)
    have hdc : dAtA.drop i = 0xa :: (encodeVarintTunnel s.length ++ (s ++ rest)) := by
      simpa [lenField, List.append_assoc] using hd
    have hlt : i < dAtA.length := drop_cons_lt hdc
    rw [show i + (lenField 0xa s).length = i + 1 + sovTunnel s.length + s.length from by
      rw [lenField_length]; omega]
    exact Data.loop_continue_data hlt hstep

/-- Decoding the bytes Data emits reproduces the Data value byte for byte,
provided it carries no unrecognized bytes. -/
theorem Data.decode_enc_data {d : Data} (hu : d.XXX_unrecognized = []) (hsz : d.Size < 2 ^ 63) :
    Data.Unmarshal { Bytes := [], XXX_unrecognized := [] } d.enc = .ok d := by
  obtain ⟨bs, u⟩ := d
  simp only at hu
  subst hu
  have hb : (if 0 < bs.length then 1 + bs.length + sovTunnel bs.length else 0) + 0 < 2 ^ 63 := by
    simpa [Data.Size] using hsz
  have hL1 : 0 < bs.length → bs.length < 2 ^ 63 := by
    intro h
    rw [if_pos h] at hb
    omega
  have hp1 : 0 < bs.length → 0 + 1 + sovTunnel bs.length + bs.length < 2 ^ 63 := by
    intro h
    rw [if_pos h] at hb
    omega
  unfold Data.Unmarshal
  have hd1 : (Data.enc ⟨bs, []⟩).drop 0 =
      (if 0 < bs.length then lenField 0xa bs else []) ++ [] := by
    simp [Data.enc]
  rw [Data.seg_bytes (m := { Bytes := [], XXX_unrecognized := [] }) rfl hd1 hL1 hp1]
  rw [show 0 + (if 0 < bs.length then lenField 0xa bs else []).length =
      (Data.enc ⟨bs, []⟩).length from by simp [Data.enc]]
  exact Data.loop_end_data

/-- The Frame values the round-trip contract quantifies over: the Message
oneof is populated with a non-nil payload, and no XXX_unrecognized bytes
are present at any level. -/
def Frame.carryingWf (f : Frame) : Bool :=
  f.XXX_unrecognized.isEmpty &&
  (match f.Message with
   | some (.dialRequest (some dr)) =>
     dr.XXX_unrecognized.isEmpty &&
     (match dr.To with
      | some a => a.XXX_unrecognized.isEmpty
      | none => true)
   | some (.data (some d)) => d.XXX_unrecognized.isEmpty
   | _ => false)

/-- Decoding the bytes Frame emits reproduces the Frame, for frames that
carry a payload and no unrecognized bytes. -/
theorem Frame.decode_enc_frame {f : Frame} (hwf : f.carryingWf = true) (hsz : f.Size < 2 ^ 63) :
    Frame.decode f.enc = .ok f := by
  obtain ⟨msg, u⟩ := f
  unfold Frame.carryingWf at hwf
  simp only [Bool.and_eq_true, List.isEmpty_iff] at hwf
  obtain ⟨hu, hwf2⟩ := hwf
  subst hu
  cases msg with
  | none => exact absurd hwf2 (by simp)
  | some fm =>
    cases fm with
    | dialRequest d =>
      cases d with
      | none => exact absurd hwf2 (by simp)
      | some dr =>
        simp only [Bool.and_eq_true, List.isEmpty_iff] at hwf2
        obtain ⟨hdru, hToWf⟩ := hwf2
        have hTo : ∀ a, dr.To = some a → a.XXX_unrecognized = [] := by
          intro a ha
          rw [ha] at hToWf
          simpa using hToWf
        have hdrsz : dr.Size < 2 ^ 63 := by
          have hsz2 : 1 + dr.Size + sovTunnel dr.Size + 0 < 2 ^ 63 := by
            simpa [Frame.Size, Frame_Message.size] using hsz
          omega
        have hv : DialRequest.Unmarshal
            { ServerID := [], ConnType := [], To := none, XXX_unrecognized := [] } dr.enc =
            .ok dr := DialRequest.decode_enc_dr hdru hTo hdrsz
        have hencf : Frame.enc ⟨some (.dialRequest (some dr)), []⟩ =
            lenField 0xa dr.enc ++ [] := by
          simp [Frame.enc, optMsgField, Frame_Message.enc]
        have hL : dr.enc.length < 2 ^ 63 := by
          rw [DialRequest.enc_length_dr]
          exact hdrsz
        have hp : 0 + 1 + sovTunnel dr.enc.length + dr.enc.length < 2 ^ 63 := by
          rw [DialRequest.enc_length_dr]
          have hsz2 : 1 + dr.Size + sovTunnel dr.Size + 0 < 2 ^ 63 := by
            simpa [Frame.Size, Frame_Message.size] using hsz
          omega
        have hd1 : (Frame.enc ⟨some (.dialRequest (some dr)), []⟩).drop 0 =
            lenField 0xa dr.enc ++ [] := by
          rw [List.drop_zero, hencf]
        have hstep := Frame.step_dialRequest
          (m := { Message := none, XXX_unrecognized := [] }) hd1 hL hp hv
        have hlt : 0 < (Frame.enc ⟨some (.dialRequest (some dr)), []⟩).length := by
          rw [hencf]
          simp [lenField]
        unfold Frame.decode Frame.Unmarshal
        rw [Frame.loop_continue_frame hlt hstep]
        rw [show 0 + 1 + sovTunnel dr.enc.length + dr.enc.length =
            (Frame.enc ⟨some (.dialRequest (some dr)), []⟩).length from by
          rw [hencf]
          simp [lenField_length, encodeVarint_length]
          try omega]
        exact Frame.loop_end_frame
    | data d =>
      cases d with
      | none => exact absurd hwf2 (by simp)
      | some dd =>
        simp only [List.isEmpty_iff] at hwf2
        have hddsz : dd.Size < 2 ^ 63 := by
          have hsz2 : 1 + dd.Size + sovTunnel dd.Size + 0 < 2 ^ 63 := by
            simpa [Frame.Size, Frame_Message.size] using hsz
          omega
        have hv : Data.Unmarshal { Bytes := [], XXX_unrecognized := [] } dd.enc = .ok dd :=
          Data.decode_enc_data hwf2 hddsz
        have hencf : Frame.enc ⟨some (.data (some dd)), []⟩ =
            lenField 0x12 dd.enc ++ [] := by
          simp [Frame.enc, optMsgField, Frame_Message.enc]
        have hL : dd.enc.length < 2 ^ 63 := by
          rw [Data.enc_length_data]
          exact hddsz
        have hp : 0 + 1 + sovTunnel dd.enc.length + dd.enc.length < 2 ^ 63 := by
          rw [Data.enc_length_data]
          have hsz2 : 1 + dd.Size + sovTunnel dd.Size + 0 < 2 ^ 63 := by
            simpa [Frame.Size, Frame_Message.size] using hsz
          omega
        have hd1 : (Frame.enc ⟨some (.data (some dd)), []⟩).drop 0 =
            lenField 0x12 dd.enc ++ [] := by
          rw [List.drop_zero, hencf]
        have hstep := Frame.step_data
          (m := { Message := none, XXX_unrecognized := [] }) hd1 hL hp hv
        have hlt : 0 < (Frame.enc ⟨some (.data (some dd)), []⟩).length := by
          rw [hencf]
          simp [lenField]
        unfold Frame.decode Frame.Unmarshal
        rw [Frame.loop_continue_frame hlt hstep]
        rw [show 0 + 1 + sovTunnel dd.enc.length + dd.enc.length =
            (Frame.enc ⟨some (.data (some dd)), []⟩).length from by
          rw [hencf]
          simp [lenField_length, encodeVarint_length]
          try omega]
        exact Frame.loop_end_frame

/-! Truncated encodings: cutting the encoding of a payload-carrying Frame
anywhere after the first byte and before its end makes decoding fail with
unexpected EOF. -/

theorem Frame.decode_truncated10 {sub : List Nat} {k : Nat}
    (hsubL : sub.length < 2 ^ 63)
    (hp63 : 1 + sovTunnel sub.length + sub.length < 2 ^ 63)
    (hk : 0 < k) (hlt : k < (lenField 0xa sub).length) :
    Frame.decode ((lenField 0xa sub).take k) = .error .eof := by
  obtain ⟨k2, rfl⟩ : ∃ k2, k = k2 + 1 := ⟨k - 1, by omega⟩
  have hlen0 : (lenField 0xa sub).length = 1 + sovTunnel sub.length + sub.length :=
    lenField_length _ _
  have htake : (lenField 0xa sub).take (k2 + 1) =
      0xa :: (encodeVarintTunnel sub.length ++ sub).take k2 := by
    simp [lenField]
  have hdlen : ((lenField 0xa sub).take (k2 + 1)).length = k2 + 1 := by
    rw [List.length_take]
    omega
  have hd0 : ((lenField 0xa sub).take (k2 + 1)).drop 0 =
      0xa :: (encodeVarintTunnel sub.length ++ sub).take k2 := by
    rw [List.drop_zero, htake]
  have h1 := readVarint_byte (by norm_num) hd0
  have hd1 : ((lenField 0xa sub).take (k2 + 1)).drop 1 =
      (encodeVarintTunnel sub.length ++ sub).take k2 := drop_succ_of_drop_cons hd0
  have hsov9 : sovTunnel sub.length ≤ 9 := sov_le_nine hsubL
  have hencL : (encodeVarintTunnel sub.length).length = sovTunnel sub.length :=
    encodeVarint_length _
  have hstep : Frame.unmarshalStep ((lenField 0xa sub).take (k2 + 1)) 0
      { Message := none, XXX_unrecognized := [] } = .error .eof := by
    unfold Frame.unmarshalStep
    dsimp only
    rw [h1]
    dsimp only
    rw [if_neg (by decide : ¬ ((10:Nat) % 8 = 4))]
    rw [if_neg (by decide :
      ¬ (((10:Nat) >>> 3) % 2 ^ 32 = 0 ∨ 2 ^ 31 ≤ ((10:Nat) >>> 3) % 2 ^ 32))]
    rw [if_pos (by decide : ((10:Nat) >>> 3) % 2 ^ 32 = 1)]
    rw [if_neg (by decide : ¬ ((10:Nat) % 8 ≠ 2))]
    rcases Nat.lt_or_ge k2 (sovTunnel sub.length) with hks | hks
    · have h2 : readVarint ((lenField 0xa sub).take (k2 + 1)) 1 0 0 = .error .eof := by
        apply readVarint_truncated k2 sub.length 0 0 1
        · omega
        · omega
        · rw [hd1, List.take_append_eq_append_take,
            show k2 - (encodeVarintTunnel sub.length).length = 0 by omega]
          simp
        · omega
      rw [h2]
    · have hsplit : (encodeVarintTunnel sub.length ++ sub).take k2 =
          encodeVarintTunnel sub.length ++ sub.take (k2 - sovTunnel sub.length) := by
        rw [List.take_append_eq_append_take]
        congr 1
        · exact List.take_of_length_le (by omega)
        · rw [hencL]
      have h2 := readVarint_enc0 (v := sub.length)
        (lt_trans hsubL (by norm_num)) (by rw [hd1, hsplit])
      rw [h2]
      dsimp only
      rw [if_neg (by omega : ¬ (2 ^ 63 ≤ sub.length))]
      rw [if_neg (by omega : ¬ (2 ^ 63 ≤ 1 + sovTunnel sub.length + sub.length))]
      rw [if_pos (show ((lenField 0xa sub).take (k2 + 1)).length <
          1 + sovTunnel sub.length + sub.length by omega)]
  have hlt0 : 0 < ((lenField 0xa sub).take (k2 + 1)).length := by omega
  unfold Frame.decode Frame.Unmarshal
  exact Frame.loop_error_frame hlt0 hstep

theorem Frame.decode_truncated18 {sub : List Nat} {k : Nat}
    (hsubL : sub.length < 2 ^ 63)
    (hp63 : 1 + sovTunnel sub.length + sub.length < 2 ^ 63)
    (hk : 0 < k) (hlt : k < (lenField 0x12 sub).length) :
    Frame.decode ((lenField 0x12 sub).take k) = .error .eof := by
  obtain ⟨k2, rfl⟩ : ∃ k2, k = k2 + 1 := ⟨k - 1, by omega⟩
  have hlen0 : (lenField 0x12 sub).length = 1 + sovTunnel sub.length + sub.length :=
    lenField_length _ _
  have htake : (lenField 0x12 sub).take (k2 + 1) =
      0x12 :: (encodeVarintTunnel sub.length ++ sub).take k2 := by
    simp [lenField]
  have hdlen : ((lenField 0x12 sub).take (k2 + 1)).length = k2 + 1 := by
    rw [List.length_take]
    omega
  have hd0 : ((lenField 0x12 sub).take (k2 + 1)).drop 0 =
      0x12 :: (encodeVarintTunnel sub.length ++ sub).take k2 := by
    rw [List.drop_zero, htake]
  have h1 := readVarint_byte (by norm_num) hd0
  have hd1 : ((lenField 0x12 sub).take (k2 + 1)).drop 1 =
      (encodeVarintTunnel sub.length ++ sub).take k2 := drop_succ_of_drop_cons hd0
  have hsov9 : sovTunnel sub.length ≤ 9 := sov_le_nine hsubL
  have hencL : (encodeVarintTunnel sub.length).length = sovTunnel sub.length :=
    encodeVarint_length _
  have hstep : Frame.unmarshalStep ((lenField 0x12 sub).take (k2 + 1)) 0
      { Message := none, XXX_unrecognized := [] } = .error .eof := by
    unfold Frame.unmarshalStep
    dsimp only
    rw [h1]
    dsimp only
    rw [if_neg (by decide : ¬ ((18:Nat) % 8 = 4))]
    rw [if_neg (by decide :
      ¬ (((18:Nat) >>> 3) % 2 ^ 32 = 0 ∨ 2 ^ 31 ≤ ((18:Nat) >>> 3) % 2 ^ 32))]
    rw [if_neg (by decide : ¬ (((18:Nat) >>> 3) % 2 ^ 32 = 1))]
    rw [if_pos (by decide : ((18:Nat) >>> 3) % 2 ^ 32 = 2)]
    rw [if_neg (by decide : ¬ ((18:Nat) % 8 ≠ 2))]
    rcases Nat.lt_or_ge k2 (sovTunnel sub.length) with hks | hks
    · have h2 : readVarint ((lenField 0x12 sub).take (k2 + 1)) 1 0 0 = .error .eof := by
        apply readVarint_truncated k2 sub.length 0 0 1
        · omega
        · omega
        · rw [hd1, List.take_append_eq_append_take,
            show k2 - (encodeVarintTunnel sub.length).length = 0 by omega]
          simp
        · omega
      rw [h2]
    · have hsplit : (encodeVarintTunnel sub.length ++ sub).take k2 =
          encodeVarintTunnel sub.length ++ sub.take (k2 - sovTunnel sub.length) := by
        rw [List.take_append_eq_append_take]
        congr 1
        · exact List.take_of_length_le (by omega)
        · rw [hencL]
      have h2 := readVarint_enc0 (v := sub.length)
        (lt_trans hsubL (by norm_num)) (by rw [hd1, hsplit])
      rw [h2]
      dsimp only
      rw [if_neg (by omega : ¬ (2 ^ 63 ≤ sub.length))]
      rw [if_neg (by omega : ¬ (2 ^ 63 ≤ 1 + sovTunnel sub.length + sub.length))]
      rw [if_pos (show ((lenField 0x12 sub).take (k2 + 1)).length <
          1 + sovTunnel sub.length + sub.length by omega)]
  have hlt0 : 0 < ((lenField 0x12 sub).take (k2 + 1)).length := by omega
  unfold Frame.decode Frame.Unmarshal
  exact Frame.loop_error_frame hlt0 hstep

/-- Any cut of the encoding of a payload-carrying Frame that keeps at
least one byte but not all of them decodes to unexpected EOF. -/
theorem Frame.decode_truncated {f : Frame} (hwf : f.carryingWf = true) (hsz : f.Size < 2 ^ 63)
    {k : Nat} (hk : 0 < k) (hlt : k < f.enc.length) :
    Frame.decode (f.enc.take k) = .error .eof := by
  obtain ⟨msg, u⟩ := f
  unfold Frame.carryingWf at hwf
  simp only [Bool.and_eq_true, List.isEmpty_iff] at hwf
  obtain ⟨hu, hwf2⟩ := hwf
  subst hu
  cases msg with
  | none => exact absurd hwf2 (by simp)
  | some fm =>
    cases fm with
    | dialRequest d =>
      cases d with
      | none => exact absurd hwf2 (by simp)
      | some dr =>
        have hdrsz : dr.Size < 2 ^ 63 := by
          have hsz2 : 1 + dr.Size + sovTunnel dr.Size + 0 < 2 ^ 63 := by
            simpa [Frame.Size, Frame_Message.size] using hsz
          omega
        have hencf : Frame.enc ⟨some (.dialRequest (some dr)), []⟩ =
            lenField 0xa dr.enc := by
          simp [Frame.enc, optMsgField, Frame_Message.enc]
        rw [hencf] at hlt ⊢
        have hp2 : 1 + sovTunnel dr.enc.length + dr.enc.length < 2 ^ 63 := by
          rw [DialRequest.enc_length_dr]
          have hsz2 : 1 + dr.Size + sovTunnel dr.Size + 0 < 2 ^ 63 := by
            simpa [Frame.Size, Frame_Message.size] using hsz
          omega
        exact Frame.decode_truncated10
          (by rw [DialRequest.enc_length_dr]; exact hdrsz) hp2 hk hlt
    | data d =>
      cases d with
      | none => exact absurd hwf2 (by simp)
      | some dd =>
        have hddsz : dd.Size < 2 ^ 63 := by
          have hsz2 : 1 + dd.Size + sovTunnel dd.Size + 0 < 2 ^ 63 := by
            simpa [Frame.Size, Frame_Message.size] using hsz
          omega
        have hencf : Frame.enc ⟨some (.data (some dd)), []⟩ =
            lenField 0x12 dd.enc := by
          simp [Frame.enc, optMsgField, Frame_Message.enc]
        rw [hencf] at hlt ⊢
        have hp2 : 1 + sovTunnel dd.enc.length + dd.enc.length < 2 ^ 63 := by
          rw [Data.enc_length_data]
          have hsz2 : 1 + dd.Size + sovTunnel dd.Size + 0 < 2 ^ 63 := by
            simpa [Frame.Size, Frame_Message.size] using hsz
          omega
        exact Frame.decode_truncated18
          (by rw [Data.enc_length_data]; exact hddsz) hp2 hk hlt

/-! Unknown fields: skipTunnel walks over one well-formed length-delimited
field, and the unmarshalers preserve its bytes in XXX_unrecognized. -/

theorem skipTunnel_field2 {t : Nat} {p rest : List Nat}
    (htl : t < 128) (ht2 : t % 8 = 2)
    (hL : p.length < 2 ^ 63)
    (hp2 : 1 + sovTunnel p.length + p.length < 2 ^ 63) :
    skipTunnel ((t :: (encodeVarintTunnel p.length ++ p)) ++ rest) =
      .ok (1 + sovTunnel p.length + p.length) := by
  have hd0 : ((t :: (encodeVarintTunnel p.length ++ p)) ++ rest).drop 0 =
      t :: (encodeVarintTunnel p.length ++ (p ++ rest)) := by
    simp [List.append_assoc]
  have h1 := readVarint_byte htl hd0
  rw [Nat.zero_add] at h1
  have hd1 : ((t :: (encodeVarintTunnel p.length ++ p)) ++ rest).drop 1 =
      encodeVarintTunnel p.length ++ (p ++ rest) := by
    have := drop_succ_of_drop_cons hd0
    simpa using this
  have h2 := readVarint_enc0 (v := p.length) (lt_trans hL (by norm_num)) hd1
  have hiter : skipIter ((t :: (encodeVarintTunnel p.length ++ p)) ++ rest) 0 0 =
      .ok (1 + sovTunnel p.length + p.length, 0) := by
    unfold skipIter
    rw [h1]
    dsimp only
    rw [ht2]
    unfold skipStep
    rw [h2]
    dsimp only
    rw [if_neg (by omega : ¬ (2 ^ 63 ≤ p.length))]
    dsimp only
    rw [if_neg (by omega : ¬ (2 ^ 63 ≤ 1 + sovTunnel p.length + p.length))]
  unfold skipTunnel
  rw [skipLoop]
  rw [dif_pos (by simp)]
  split
  · rename_i e heq
    rw [hiter] at heq
    exact Except.noConfusion heq
  · rename_i i2 d2 heq
    rw [hiter] at heq
    injection heq with heq2
    injection heq2 with hi hdep
    rw [← hi, ← hdep]
    rw [if_pos rfl]

theorem DialRequest.step_unknown_dr {dAtA : List Nat} {i : Nat} {m : DialRequest}
    {t : Nat} {p rest : List Nat}
    (htl : t < 128) (ht2 : t % 8 = 2) (hfn : 4 ≤ t >>> 3)
    (hd : dAtA.drop i = (t :: (encodeVarintTunnel p.length ++ p)) ++ rest)
    (hL : p.length < 2 ^ 63)
    (hp : i + (1 + sovTunnel p.length + p.length) < 2 ^ 63) :
    DialRequest.unmarshalStep dAtA i m =
      .ok (i + (1 + sovTunnel p.length + p.length),
        { m with XXX_unrecognized :=
            m.XXX_unrecognized ++ (t :: (encodeVarintTunnel p.length ++ p)) }) := by
  have hu : (t :: (encodeVarintTunnel p.length ++ p)).length =
      1 + sovTunnel p.length + p.length := by
    simp [encodeVarint_length]
    try omega
  have hdc : dAtA.drop i = t :: (encodeVarintTunnel p.length ++ (p ++ rest)) := by
    simpa [List.append_assoc] using hd
  have h1 := readVarint_byte htl hdc
  have hilt := drop_cons_lt hdc
  have hlen : dAtA.length = i + (1 + sovTunnel p.length + p.length) + rest.length := by
    have h3 := drop_append_lengths hd (by omega)
    rw [hu] at h3
    omega
  have h8 : (2:Nat) ^ 3 = 8 := by norm_num
  have ht3ub : t >>> 3 < 16 := by
    rw [Nat.shiftRight_eq_div_pow, h8]
    omega
  have hmod : (t >>> 3) % 2 ^ 32 = t >>> 3 := by
    apply Nat.mod_eq_of_lt
    calc t >>> 3 < 16 := ht3ub
      _ < 2 ^ 32 := by norm_num
  have hskip : skipTunnel (List.drop i dAtA) = .ok (1 + sovTunnel p.length + p.length) := by
    rw [hd]
    exact skipTunnel_field2 htl ht2 hL (by omega)
  have htake : List.take (1 + sovTunnel p.length + p.length) (List.drop i dAtA) =
      t :: (encodeVarintTunnel p.length ++ p) := by
    rw [hd, ← hu]
    exact List.take_left _ _
  unfold DialRequest.unmarshalStep
  dsimp only
  rw [h1]
  dsimp only
  rw [hmod, ht2]
  rw [if_neg (by decide : ¬ ((2:Nat) = 4))]
  rw [if_neg (by omega : ¬ (t >>> 3 = 0 ∨ 2 ^ 31 ≤ t >>> 3))]
  rw [if_neg (by omega : ¬ (t >>> 3 = 1))]
  rw [if_neg (by omega : ¬ (t >>> 3 = 2))]
  rw [if_neg (by omega : ¬ (t >>> 3 = 3))]
  rw [hskip]
  dsimp only
  rw [if_neg (by omega : ¬ (2 ^ 63 ≤ i + (1 + sovTunnel p.length + p.length)))]
  rw [if_neg (by omega : ¬ (dAtA.length < i + (1 + sovTunnel p.length + p.length)))]
  rw [htake]

theorem Addr.step_unknown_addr {dAtA : List Nat} {i : Nat} {m : Addr}
    {t : Nat} {p rest : List Nat}
    (htl : t < 128) (ht2 : t % 8 = 2) (hfn : 3 ≤ t >>> 3)
    (hd : dAtA.drop i = (t :: (encodeVarintTunnel p.length ++ p)) ++ rest)
    (hL : p.length < 2 ^ 63)
    (hp : i + (1 + sovTunnel p.length + p.length) < 2 ^ 63) :
    Addr.unmarshalStep dAtA i m =
      .ok (i + (1 + sovTunnel p.length + p.length),
        { m with XXX_unrecognized :=
            m.XXX_unrecognized ++ (t :: (encodeVarintTunnel p.length ++ p)) }) := by
  have hu : (t :: (encodeVarintTunnel p.length ++ p)).length =
      1 + sovTunnel p.length + p.length := by
    simp [encodeVarint_length]
    try omega
  have hdc : dAtA.drop i = t :: (encodeVarintTunnel p.length ++ (p ++ rest)) := by
    simpa [List.append_assoc] using hd
  have h1 := readVarint_byte htl hdc
  have hilt := drop_cons_lt hdc
  have hlen : dAtA.length = i + (1 + sovTunnel p.length + p.length) + rest.length := by
    have h3 := drop_append_lengths hd (by omega)
    rw [hu] at h3
    omega
  have h8 : (2:Nat) ^ 3 = 8 := by norm_num
  have ht3ub : t >>> 3 < 16 := by
    rw [Nat.shiftRight_eq_div_pow, h8]
    omega
  have hmod : (t >>> 3) % 2 ^ 32 = t >>> 3 := by
    apply Nat.mod_eq_of_lt
    calc t >>> 3 < 16 := ht3ub
      _ < 2 ^ 32 := by norm_num
  have hskip : skipTunnel (List.drop i dAtA) = .ok (1 + sovTunnel p.length + p.length) := by
    rw [hd]
    exact skipTunnel_field2 htl ht2 hL (by omega)
  have htake : List.take (1 + sovTunnel p.length + p.length) (List.drop i dAtA) =
      t :: (encodeVarintTunnel p.length ++ p) := by
    rw [hd, ← hu]
    exact List.take_left _ _
  unfold Addr.unmarshalStep
  dsimp only
  rw [h1]
  dsimp only
  rw [hmod, ht2]
  rw [if_neg (by decide : ¬ ((2:Nat) = 4))]
  rw [if_neg (by omega : ¬ (t >>> 3 = 0 ∨ 2 ^ 31 ≤ t >>> 3))]
  rw [if_neg (by omega : ¬ (t >>> 3 = 1))]
  rw [if_neg (by omega : ¬ (t >>> 3 = 2))]
  rw [hskip]
  dsimp only
  rw [if_neg (by omega : ¬ (2 ^ 63 ≤ i + (1 + sovTunnel p.length + p.length)))]
  rw [if_neg (by omega : ¬ (dAtA.length < i + (1 + sovTunnel p.length + p.length)))]
  rw [htake]

theorem Frame.step_unknown_frame {dAtA : List Nat} {i : Nat} {m : Frame}
    {t : Nat} {p rest : List Nat}
    (htl : t < 128) (ht2 : t % 8 = 2) (hfn : 3 ≤ t >>> 3)
    (hd : dAtA.drop i = (t :: (encodeVarintTunnel p.length ++ p)) ++ rest)
    (hL : p.length < 2 ^ 63)
    (hp : i + (1 + sovTunnel p.length + p.length) < 2 ^ 63) :
    Frame.unmarshalStep dAtA i m =
      .ok (i + (1 + sovTunnel p.length + p.length),
        { m with XXX_unrecognized :=
            m.XXX_unrecognized ++ (t :: (encodeVarintTunnel p.length ++ p)) }) := by
  have hu : (t :: (encodeVarintTunnel p.length ++ p)).length =
      1 + sovTunnel p.length + p.length := by
    simp [encodeVarint_length]
    try omega
  have hdc : dAtA.drop i = t :: (encodeVarintTunnel p.length ++ (p ++ rest)) := by
    simpa [List.append_assoc] using hd
  have h1 := readVarint_byte htl hdc
  have hilt := drop_cons_lt hdc
  have hlen : dAtA.length = i + (1 + sovTunnel p.length + p.length) + rest.length := by
    have h3 := drop_append_lengths hd (by omega)
    rw [hu] at h3
    omega
  have h8 : (2:Nat) ^ 3 = 8 := by norm_num
  have ht3ub : t >>> 3 < 16 := by
    rw [Nat.shiftRight_eq_div_pow, h8]
    omega
  have hmod : (t >>> 3) % 2 ^ 32 = t >>> 3 := by
    apply Nat.mod_eq_of_lt
    calc t >>> 3 < 16 := ht3ub
      _ < 2 ^ 32 := by norm_num
  have hskip : skipTunnel (List.drop i dAtA) = .ok (1 + sovTunnel p.length + p.length) := by
    rw [hd]
    exact skipTunnel_field2 htl ht2 hL (by omega)
  have htake : List.take (1 + sovTunnel p.length + p.length) (List.drop i dAtA) =
      t :: (encodeVarintTunnel p.length ++ p) := by
    rw [hd, ← hu]
    exact List.take_left _ _
  unfold Frame.unmarshalStep
  dsimp only
  rw [h1]
  dsimp only
  rw [hmod, ht2]
  rw [if_neg (by decide : ¬ ((2:Nat) = 4))]
  rw [if_neg (by omega : ¬ (t >>> 3 = 0 ∨ 2 ^ 31 ≤ t >>> 3))]
  rw [if_neg (by omega : ¬ (t >>> 3 = 1))]
  rw [if_neg (by omega : ¬ (t >>> 3 = 2))]
  rw [hskip]
  dsimp only
  rw [if_neg (by omega : ¬ (2 ^ 63 ≤ i + (1 + sovTunnel p.length + p.length)))]
  rw [if_neg (by omega : ¬ (dAtA.length < i + (1 + sovTunnel p.length + p.length)))]
  rw [htake]

/-! Overlong length declarations: a varint length that promises more bytes
than remain in the buffer makes decoding fail. -/

theorem Frame.decode_overlong10_frame {L : Nat} {rest : List Nat}
    (hL : L < 2 ^ 63) (hr : rest.length < L) :
    ∃ e, Frame.decode (0xa :: (encodeVarintTunnel L ++ rest)) = .error e := by
  have hd0 : (0xa :: (encodeVarintTunnel L ++ rest)).drop 0 =
      0xa :: (encodeVarintTunnel L ++ rest) := List.drop_zero _
  have h1 := readVarint_byte (by norm_num) hd0
  rw [Nat.zero_add] at h1
  have hd1 : (0xa :: (encodeVarintTunnel L ++ rest)).drop 1 =
      encodeVarintTunnel L ++ rest := by simp
  have h2 := readVarint_enc0 (v := L) (lt_trans hL (by norm_num)) hd1
  have hlen : (0xa :: (encodeVarintTunnel L ++ rest)).length =
      1 + sovTunnel L + rest.length := by
    simp [encodeVarint_length]
    try omega
  have hlt0 : 0 < (0xa :: (encodeVarintTunnel L ++ rest)).length := by simp
  rcases Nat.lt_or_ge (1 + sovTunnel L + L) (2 ^ 63) with hcase | hcase
  · refine ⟨.eof, ?_⟩
    have hstep : Frame.unmarshalStep (0xa :: (encodeVarintTunnel L ++ rest)) 0
        { Message := none, XXX_unrecognized := [] } = .error .eof := by
      unfold Frame.unmarshalStep
      dsimp only
      rw [h1]
      dsimp only
      rw [if_neg (by decide : ¬ ((10:Nat) % 8 = 4))]
      rw [if_neg (by decide :
        ¬ (((10:Nat) >>> 3) % 2 ^ 32 = 0 ∨ 2 ^ 31 ≤ ((10:Nat) >>> 3) % 2 ^ 32))]
      rw [if_pos (by decide : ((10:Nat) >>> 3) % 2 ^ 32 = 1)]
      rw [if_neg (by decide : ¬ ((10:Nat) % 8 ≠ 2))]
      rw [h2]
      dsimp only
      rw [if_neg (by omega : ¬ (2 ^ 63 ≤ L))]
      rw [if_neg (by omega : ¬ (2 ^ 63 ≤ 1 + sovTunnel L + L))]
      rw [if_pos (show (0xa :: (encodeVarintTunnel L ++ rest)).length <
          1 + sovTunnel L + L by omega)]
    exact Frame.loop_error_frame hlt0 hstep
  · refine ⟨.invalidLength, ?_⟩
    have hstep : Frame.unmarshalStep (0xa :: (encodeVarintTunnel L ++ rest)) 0
        { Message := none, XXX_unrecognized := [] } = .error .invalidLength := by
      unfold Frame.unmarshalStep
      dsimp only
      rw [h1]
      dsimp only
      rw [if_neg (by decide : ¬ ((10:Nat) % 8 = 4))]
      rw [if_neg (by decide :
        ¬ (((10:Nat) >>> 3) % 2 ^ 32 = 0 ∨ 2 ^ 31 ≤ ((10:Nat) >>> 3) % 2 ^ 32))]
      rw [if_pos (by decide : ((10:Nat) >>> 3) % 2 ^ 32 = 1)]
      rw [if_neg (by decide : ¬ ((10:Nat) % 8 ≠ 2))]
      rw [h2]
      dsimp only
      rw [if_neg (by omega : ¬ (2 ^ 63 ≤ L))]
      rw [if_pos (show 2 ^ 63 ≤ 1 + sovTunnel L + L by omega)]
    exact Frame.loop_error_frame hlt0 hstep

theorem Frame.decode_overlong18 {L : Nat} {rest : List Nat}
    (hL : L < 2 ^ 63) (hr : rest.length < L) :
    ∃ e, Frame.decode (0x12 :: (encodeVarintTunnel L ++ rest)) = .error e := by
  have hd0 : (0x12 :: (encodeVarintTunnel L ++ rest)).drop 0 =
      0x12 :: (encodeVarintTunnel L ++ rest) := List.drop_zero _
  have h1 := readVarint_byte (by norm_num) hd0
  rw [Nat.zero_add] at h1
  have hd1 : (0x12 :: (encodeVarintTunnel L ++ rest)).drop 1 =
      encodeVarintTunnel L ++ rest := by simp
  have h2 := readVarint_enc0 (v := L) (lt_trans hL (by norm_num)) hd1
  have hlen : (0x12 :: (encodeVarintTunnel L ++ rest)).length =
      1 + sovTunnel L + rest.length := by
    simp [encodeVarint_length]
    try omega
  have hlt0 : 0 < (0x12 :: (encodeVarintTunnel L ++ rest)).length := by simp
  rcases Nat.lt_or_ge (1 + sovTunnel L + L) (2 ^ 63) with hcase | hcase
  · refine ⟨.eof, ?_⟩
    have hstep : Frame.unmarshalStep (0x12 :: (encodeVarintTunnel L ++ rest)) 0
        { Message := none, XXX_unrecognized := [] } = .error .eof := by
      unfold Frame.unmarshalStep
      dsimp only
      rw [h1]
      dsimp only
      rw [if_neg (by decide : ¬ ((18:Nat) % 8 = 4))]
      rw [if_neg (by decide :
        ¬ (((18:Nat) >>> 3) % 2 ^ 32 = 0 ∨ 2 ^ 31 ≤ ((18:Nat) >>> 3) % 2 ^ 32))]
      rw [if_neg (by decide : ¬ (((18:Nat) >>> 3) % 2 ^ 32 = 1))]
      rw [if_pos (by decide : ((18:Nat) >>> 3) % 2 ^ 32 = 2)]
      rw [if_neg (by decide : ¬ ((18:Nat) % 8 ≠ 2))]
      rw [h2]
      dsimp only
      rw [if_neg (by omega : ¬ (2 ^ 63 ≤ L))]
      rw [if_neg (by omega : ¬ (2 ^ 63 ≤ 1 + sovTunnel L + L))]
      rw [if_pos (show (0x12 :: (encodeVarintTunnel L ++ rest)).length <
          1 + sovTunnel L + L by omega)]
    exact Frame.loop_error_frame hlt0 hstep
  · refine ⟨.invalidLength, ?_⟩
    have hstep : Frame.unmarshalStep (0x12 :: (encodeVarintTunnel L ++ rest)) 0
        { Message := none, XXX_unrecognized := [] } = .error .invalidLength := by
      unfold Frame.unmarshalStep
      dsimp only
      rw [h1]
      dsimp only
      rw [if_neg (by decide : ¬ ((18:Nat) % 8 = 4))]
      rw [if_neg (by decide :
        ¬ (((18:Nat) >>> 3) % 2 ^ 32 = 0 ∨ 2 ^ 31 ≤ ((18:Nat) >>> 3) % 2 ^ 32))]
      rw [if_neg (by decide : ¬ (((18:Nat) >>> 3) % 2 ^ 32 = 1))]
      rw [if_pos (by decide : ((18:Nat) >>> 3) % 2 ^ 32 = 2)]
      rw [if_neg (by decide : ¬ ((18:Nat) % 8 ≠ 2))]
      rw [h2]
      dsimp only
      rw [if_neg (by omega : ¬ (2 ^ 63 ≤ L))]
      rw [if_pos (show 2 ^ 63 ≤ 1 + sovTunnel L + L by omega)]
    exact Frame.loop_error_frame hlt0 hstep

theorem DialRequest.decode_overlong10_dr {L : Nat} {rest : List Nat}
    (hL : L < 2 ^ 63) (hr : rest.length < L) :
    ∃ e, DialRequest.decode (0xa :: (encodeVarintTunnel L ++ rest)) = .error e := by
  have hd0 : (0xa :: (encodeVarintTunnel L ++ rest)).drop 0 =
      0xa :: (encodeVarintTunnel L ++ rest) := List.drop_zero _
  have h1 := readVarint_byte (by norm_num) hd0
  rw [Nat.zero_add] at h1
  have hd1 : (0xa :: (encodeVarintTunnel L ++ rest)).drop 1 =
      encodeVarintTunnel L ++ rest := by simp
  have h2 := readVarint_enc0 (v := L) (lt_trans hL (by norm_num)) hd1
  have hlen : (0xa :: (encodeVarintTunnel L ++ rest)).length =
      1 + sovTunnel L + rest.length := by
    simp [encodeVarint_length]
    try omega
  have hlt0 : 0 < (0xa :: (encodeVarintTunnel L ++ rest)).length := by simp
  rcases Nat.lt_or_ge (1 + sovTunnel L + L) (2 ^ 63) with hcase | hcase
  · refine ⟨.eof, ?_⟩
    have hstep : DialRequest.unmarshalStep (0xa :: (encodeVarintTunnel L ++ rest)) 0
        { ServerID := [], ConnType := [], To := none, XXX_unrecognized := [] } =
        .error .eof := by
      unfold DialRequest.unmarshalStep
      dsimp only
      rw [h1]
      dsimp only
      rw [if_neg (by decide : ¬ ((10:Nat) % 8 = 4))]
      rw [if_neg (by decide :
        ¬ (((10:Nat) >>> 3) % 2 ^ 32 = 0 ∨ 2 ^ 31 ≤ ((10:Nat) >>> 3) % 2 ^ 32))]
      rw [if_pos (by decide : ((10:Nat) >>> 3) % 2 ^ 32 = 1)]
      rw [if_neg (by decide : ¬ ((10:Nat) % 8 ≠ 2))]
      rw [h2]
      dsimp only
      rw [if_neg (by omega : ¬ (2 ^ 63 ≤ L))]
      rw [if_neg (by omega : ¬ (2 ^ 63 ≤ 1 + sovTunnel L + L))]
      rw [if_pos (show (0xa :: (encodeVarintTunnel L ++ rest)).length <
          1 + sovTunnel L + L by omega)]
    exact DialRequest.loop_error_dr hlt0 hstep
  · refine ⟨.invalidLength, ?_⟩
    have hstep : DialRequest.unmarshalStep (0xa :: (encodeVarintTunnel L ++ rest)) 0
        { ServerID := [], ConnType := [], To := none, XXX_unrecognized := [] } =
        .error .invalidLength := by
      unfold DialRequest.unmarshalStep
      dsimp only
      rw [h1]
      dsimp only
      rw [if_neg (by decide : ¬ ((10:Nat) % 8 = 4))]
      rw [if_neg (by decide :
        ¬ (((10:Nat) >>> 3) % 2 ^ 32 = 0 ∨ 2 ^ 31 ≤ ((10:Nat) >>> 3) % 2 ^ 32))]
      rw [if_pos (by decide : ((10:Nat) >>> 3) % 2 ^ 32 = 1)]
      rw [if_neg (by decide : ¬ ((10:Nat) % 8 ≠ 2))]
      rw [h2]
      dsimp only
      rw [if_neg (by omega : ¬ (2 ^ 63 ≤ L))]
      rw [if_pos (show 2 ^ 63 ≤ 1 + sovTunnel L + L by omega)]
    exact DialRequest.loop_error_dr hlt0 hstep

theorem Addr.decode_overlong10_addr {L : Nat} {rest : List Nat}
    (hL : L < 2 ^ 63) (hr : rest.length < L) :
    ∃ e, Addr.decode (0xa :: (encodeVarintTunnel L ++ rest)) = .error e := by
  have hd0 : (0xa :: (encodeVarintTunnel L ++ rest)).drop 0 =
      0xa :: (encodeVarintTunnel L ++ rest) := List.drop_zero _
  have h1 := readVarint_byte (by norm_num) hd0
  rw [Nat.zero_add] at h1
  have hd1 : (0xa :: (encodeVarintTunnel L ++ rest)).drop 1 =
      encodeVarintTunnel L ++ rest := by simp
  have h2 := readVarint_enc0 (v := L) (lt_trans hL (by norm_num)) hd1
  have hlen : (0xa :: (encodeVarintTunnel L ++ rest)).length =
      1 + sovTunnel L + rest.length := by
    simp [encodeVarint_length]
    try omega
  have hlt0 : 0 < (0xa :: (encodeVarintTunnel L ++ rest)).length := by simp
  rcases Nat.lt_or_ge (1 + sovTunnel L + L) (2 ^ 63) with hcase | hcase
  · refine ⟨.eof, ?_⟩
    have hstep : Addr.unmarshalStep (0xa :: (encodeVarintTunnel L ++ rest)) 0
        { Network := [], Address := [], XXX_unrecognized := [] } = .error .eof := by
      unfold Addr.unmarshalStep
      dsimp only
      rw [h1]
      dsimp only
      rw [if_neg (by decide : ¬ ((10:Nat) % 8 = 4))]
      rw [if_neg (by decide :
        ¬ (((10:Nat) >>> 3) % 2 ^ 32 = 0 ∨ 2 ^ 31 ≤ ((10:Nat) >>> 3) % 2 ^ 32))]
      rw [if_pos (by decide : ((10:Nat) >>> 3) % 2 ^ 32 = 1)]
      rw [if_neg (by decide : ¬ ((10:Nat) % 8 ≠ 2))]
      rw [h2]
      dsimp only
      rw [if_neg (by omega : ¬ (2 ^ 63 ≤ L))]
      rw [if_neg (by omega : ¬ (2 ^ 63 ≤ 1 + sovTunnel L + L))]
      rw [if_pos (show (0xa :: (encodeVarintTunnel L ++ rest)).length <
          1 + sovTunnel L + L by omega)]
    exact Addr.loop_error_addr hlt0 hstep
  · refine ⟨.invalidLength, ?_⟩
    have hstep : Addr.unmarshalStep (0xa :: (encodeVarintTunnel L ++ rest)) 0
        { Network := [], Address := [], XXX_unrecognized := [] } =
        .error .invalidLength := by
      unfold Addr.unmarshalStep
      dsimp only
      rw [h1]
      dsimp only
      rw [if_neg (by decide : ¬ ((10:Nat) % 8 = 4))]
      rw [if_neg (by decide :
        ¬ (((10:Nat) >>> 3) % 2 ^ 32 = 0 ∨ 2 ^ 31 ≤ ((10:Nat) >>> 3) % 2 ^ 32))]
      rw [if_pos (by decide : ((10:Nat) >>> 3) % 2 ^ 32 = 1)]
      rw [if_neg (by decide : ¬ ((10:Nat) % 8 ≠ 2))]
      rw [h2]
      dsimp only
      rw [if_neg (by omega : ¬ (2 ^ 63 ≤ L))]
      rw [if_pos (show 2 ^ 63 ≤ 1 + sovTunnel L + L by omega)]
    exact Addr.loop_error_addr hlt0 hstep

theorem Data.decode_overlong10_data {L : Nat} {rest : List Nat}
    (hL : L < 2 ^ 63) (hr : rest.length < L) :
    ∃ e, Data.decode (0xa :: (encodeVarintTunnel L ++ rest)) = .error e := by
  have hd0 : (0xa :: (encodeVarintTunnel L ++ rest)).drop 0 =
      0xa :: (encodeVarintTunnel L ++ rest) := List.drop_zero _
  have h1 := readVarint_byte (by norm_num) hd0
  rw [Nat.zero_add] at h1
  have hd1 : (0xa :: (encodeVarintTunnel L ++ rest)).drop 1 =
      encodeVarintTunnel L ++ rest := by simp
  have h2 := readVarint_enc0 (v := L) (lt_trans hL (by norm_num)) hd1
  have hlen : (0xa :: (encodeVarintTunnel L ++ rest)).length =
      1 + sovTunnel L + rest.length := by
    simp [encodeVarint_length]
    try omega
  have hlt0 : 0 < (0xa :: (encodeVarintTunnel L ++ rest)).length := by simp
  rcases Nat.lt_or_ge (1 + sovTunnel L + L) (2 ^ 63) with hcase | hcase
  · refine ⟨.eof, ?_⟩
    have hstep : Data.unmarshalStep (0xa :: (encodeVarintTunnel L ++ rest)) 0
        { Bytes := [], XXX_unrecognized := [] } = .error .eof := by
      unfold Data.unmarshalStep
      dsimp only
      rw [h1]
      dsimp only
      rw [if_neg (by decide : ¬ ((10:Nat) % 8 = 4))]
      rw [if_neg (by decide :
        ¬ (((10:Nat) >>> 3) % 2 ^ 32 = 0 ∨ 2 ^ 31 ≤ ((10:Nat) >>> 3) % 2 ^ 32))]
      rw [if_pos (by decide : ((10:Nat) >>> 3) % 2 ^ 32 = 1)]
      rw [if_neg (by decide : ¬ ((10:Nat) % 8 ≠ 2))]
      rw [h2]
      dsimp only
      rw [if_neg (by omega : ¬ (2 ^ 63 ≤ L))]
      rw [if_neg (by omega : ¬ (2 ^ 63 ≤ 1 + sovTunnel L + L))]
      rw [if_pos (show (0xa :: (encodeVarintTunnel L ++ rest)).length <
          1 + sovTunnel L + L by omega)]
    exact Data.loop_error_data hlt0 hstep
  · refine ⟨.invalidLength, ?_⟩
    have hstep : Data.unmarshalStep (0xa :: (encodeVarintTunnel L ++ rest)) 0
        { Bytes := [], XXX_unrecognized := [] } = .error .invalidLength := by
      unfold Data.unmarshalStep
      dsimp only
      rw [h1]
      dsimp only
      rw [if_neg (by decide : ¬ ((10:Nat) % 8 = 4))]
      rw [if_neg (by decide :
        ¬ (((10:Nat) >>> 3) % 2 ^ 32 = 0 ∨ 2 ^ 31 ≤ ((10:Nat) >>> 3) % 2 ^ 32))]
      rw [if_pos (by decide : ((10:Nat) >>> 3) % 2 ^ 32 = 1)]
      rw [if_neg (by decide : ¬ ((10:Nat) % 8 ≠ 2))]
      rw [h2]
      dsimp only
      rw [if_neg (by omega : ¬ (2 ^ 63 ≤ L))]
      rw [if_pos (show 2 ^ 63 ≤ 1 + sovTunnel L + L by omega)]
    exact Data.loop_error_data hlt0 hstep

/-! Bounds safety: no decoder path ever reaches the out-of-bounds read
marker, because every byte access sits behind an index guard. -/

theorem readVarint_ne_oob_aux :
    ∀ fuel shift, 64 - shift ≤ fuel →
      ∀ dAtA iNdEx acc, readVarint dAtA iNdEx shift acc ≠ .error .oob := by
  intro fuel
  induction fuel with
  | zero =>
    intro shift hs dAtA i acc h
    unfold readVarint at h
    rw [dif_pos (by omega)] at h
    injection h with he
    exact DErr.noConfusion he
  | succ fuel ih =>
    intro shift hs dAtA i acc h
    unfold readVarint at h
    split at h
    · injection h with he
      exact DErr.noConfusion he
    · split at h
      · injection h with he
        exact DErr.noConfusion he
      · split at h
        · rename_i hnone
          rename_i hlen _
          rw [List.getElem?_eq_getElem (by omega)] at hnone
          exact Option.noConfusion hnone
        · split at h
          · exact Except.noConfusion h
          · exact ih (shift + 7) (by omega) dAtA (i + 1) _ h

theorem readVarint_ne_oob {dAtA iNdEx shift acc} :
    readVarint dAtA iNdEx shift acc ≠ .error .oob :=
  readVarint_ne_oob_aux (64 - shift) shift le_rfl dAtA iNdEx acc

theorem skipGroupVarint_ne_oob_aux :
    ∀ fuel shift, 64 - shift ≤ fuel →
      ∀ dAtA iNdEx, skipGroupVarint dAtA iNdEx shift ≠ .error .oob := by
  intro fuel
  induction fuel with
  | zero =>
    intro shift hs dAtA i h
    unfold skipGroupVarint at h
    rw [dif_pos (by omega)] at h
    injection h with he
    exact DErr.noConfusion he
  | succ fuel ih =>
    intro shift hs dAtA i h
    unfold skipGroupVarint at h
    split at h
    · injection h with he
      exact DErr.noConfusion he
    · split at h
      · injection h with he
        exact DErr.noConfusion he
      · split at h
        · rename_i hnone
          rename_i hlen _
          rw [List.getElem?_eq_getElem (by omega)] at hnone
          exact Option.noConfusion hnone
        · split at h
          · exact Except.noConfusion h
          · exact ih (shift + 7) (by omega) dAtA (i + 1) h

theorem skipGroupVarint_ne_oob {dAtA iNdEx shift} :
    skipGroupVarint dAtA iNdEx shift ≠ .error .oob :=
  skipGroupVarint_ne_oob_aux (64 - shift) shift le_rfl dAtA iNdEx

theorem skipStep_ne_oob {dAtA i1 wireType depth} :
    skipStep dAtA i1 wireType depth ≠ .error .oob := by
  intro h
  unfold skipStep at h
  split at h
  · rcases hg : skipGroupVarint dAtA i1 0 with e | j <;> rw [hg] at h <;> dsimp only at h
    · injection h with he
      subst he
      exact skipGroupVarint_ne_oob hg
    · exact Except.noConfusion h
  · exact Except.noConfusion h
  · rcases hv : readVarint dAtA i1 0 0 with e | ⟨len, i2⟩ <;> rw [hv] at h <;> dsimp only at h
    · injection h with he
      subst he
      exact readVarint_ne_oob hv
    · split at h
      · injection h with he
        exact DErr.noConfusion he
      · exact Except.noConfusion h
  · exact Except.noConfusion h
  · split at h
    · injection h with he
      exact DErr.noConfusion he
    · exact Except.noConfusion h
  · exact Except.noConfusion h
  · injection h with he
    exact DErr.noConfusion he

theorem skipIter_ne_oob {dAtA iNdEx depth} :
    skipIter dAtA iNdEx depth ≠ .error .oob := by
  intro h
  unfold skipIter at h
  rcases hv : readVarint dAtA iNdEx 0 0 with e | ⟨wire, i1⟩ <;> rw [hv] at h <;> dsimp only at h
  · injection h with he
    subst he
    exact readVarint_ne_oob hv
  · rcases hss : skipStep dAtA i1 (wire % 8) depth with e2 | ⟨i2, d2⟩ <;>
      rw [hss] at h <;> dsimp only at h
    · injection h with he
      subst he
      exact skipStep_ne_oob hss
    · split at h
      · injection h with he
        exact DErr.noConfusion he
      · exact Except.noConfusion h

theorem skipLoop_ne_oob_aux :
    ∀ fuel dAtA iNdEx depth, dAtA.length - iNdEx ≤ fuel →
      skipLoop dAtA iNdEx depth ≠ .error .oob := by
  intro fuel
  induction fuel with
  | zero =>
    intro dAtA i depth hf h
    unfold skipLoop at h
    rw [dif_neg (by omega)] at h
    injection h with he
    exact DErr.noConfusion he
  | succ fuel ih =>
    intro dAtA i depth hf h
    unfold skipLoop at h
    split at h
    · split at h
      · rename_i heq
        injection h with he
        subst he
        exact skipIter_ne_oob heq
      · rename_i i2 d2 heq
        have hlt := skipIter_lt heq
        split at h
        · exact Except.noConfusion h
        · exact ih dAtA i2 d2 (by omega) h
    · injection h with he
      exact DErr.noConfusion he

theorem skipTunnel_ne_oob {dAtA} : skipTunnel dAtA ≠ .error .oob :=
  skipLoop_ne_oob_aux dAtA.length dAtA 0 0 (by omega)

theorem Addr.step_ne_oob_addr {dAtA iNdEx m} :
    Addr.unmarshalStep dAtA iNdEx m ≠ .error .oob := by
  intro h
  unfold Addr.unmarshalStep at h
  dsimp only at h
  rcases hr0 : readVarint dAtA iNdEx 0 0 with e0 | ⟨wire, i1⟩ <;> rw [hr0] at h <;>
    dsimp only at h
  · injection h with he
    subst he
    exact readVarint_ne_oob hr0
  rcases hsk : skipTunnel (List.drop iNdEx dAtA) with e2 | sk <;> rw [hsk] at h <;>
    rcases hr1 : readVarint dAtA i1 0 0 with e1 | ⟨len1, i2⟩ <;> rw [hr1] at h <;>
    dsimp only at h
  all_goals repeat' split at h
  all_goals try exact Except.noConfusion h
  all_goals injection h with he
  all_goals try exact DErr.noConfusion he
  all_goals subst he
  all_goals first
    | exact readVarint_ne_oob hr1
    | exact skipTunnel_ne_oob hsk

theorem Addr.loop_ne_oob_aux_addr :
    ∀ fuel dAtA iNdEx m, dAtA.length - iNdEx ≤ fuel →
      Addr.unmarshalLoop dAtA iNdEx m ≠ .error .oob := by
  intro fuel
  induction fuel with
  | zero =>
    intro dAtA i m hf h
    unfold Addr.unmarshalLoop at h
    rw [dif_neg (by omega)] at h
    split at h
    · injection h with he
      exact DErr.noConfusion he
    · exact Except.noConfusion h
  | succ fuel ih =>
    intro dAtA i m hf h
    unfold Addr.unmarshalLoop at h
    split at h
    · split at h
      · rename_i heq
        injection h with he
        subst he
        exact Addr.step_ne_oob_addr heq
      · rename_i j m2 heq
        have hlt := Addr.unmarshalStep_lt_addr heq
        exact ih dAtA j m2 (by omega) h
    · split at h
      · injection h with he
        exact DErr.noConfusion he
      · exact Except.noConfusion h

theorem Addr.unmarshal_ne_oob_addr {m dAtA} : Addr.Unmarshal m dAtA ≠ .error .oob :=
  Addr.loop_ne_oob_aux_addr dAtA.length dAtA 0 m (by omega)

set_option maxHeartbeats 1600000 in
theorem DialRequest.step_ne_oob_dr {dAtA iNdEx m} :
    DialRequest.unmarshalStep dAtA iNdEx m ≠ .error .oob := by
  intro h
  unfold DialRequest.unmarshalStep at h
  dsimp only at h
  rcases hr0 : readVarint dAtA iNdEx 0 0 with e0 | ⟨wire, i1⟩ <;> rw [hr0] at h <;>
    dsimp only at h
  · injection h with he
    subst he
    exact readVarint_ne_oob hr0
  rcases hsk : skipTunnel (List.drop iNdEx dAtA) with e2 | sk <;> rw [hsk] at h <;>
    rcases hr1 : readVarint dAtA i1 0 0 with e1 | ⟨len1, i2⟩ <;> rw [hr1] at h <;>
    dsimp only at h
  all_goals try (
    rcases ha : Addr.Unmarshal
        (m.To.getD { Network := [], Address := [], XXX_unrecognized := [] })
        (List.take len1 (List.drop i2 dAtA)) with e3 | av <;>
      rw [ha] at h <;> dsimp only at h)
  all_goals repeat' split at h
  all_goals try exact Except.noConfusion h
  all_goals injection h with he
  all_goals try exact DErr.noConfusion he
  all_goals subst he
  all_goals first
    | exact readVarint_ne_oob hr1
    | exact skipTunnel_ne_oob hsk
    | exact Addr.unmarshal_ne_oob_addr ha

theorem DialRequest.loop_ne_oob_aux_dr :
    ∀ fuel dAtA iNdEx m, dAtA.length - iNdEx ≤ fuel →
      DialRequest.unmarshalLoop dAtA iNdEx m ≠ .error .oob := by
  intro fuel
  induction fuel with
  | zero =>
    intro dAtA i m hf h
    unfold DialRequest.unmarshalLoop at h
    rw [dif_neg (by omega)] at h
    split at h
    · injection h with he
      exact DErr.noConfusion he
    · exact Except.noConfusion h
  | succ fuel ih =>
    intro dAtA i m hf h
    unfold DialRequest.unmarshalLoop at h
    split at h
    · split at h
      · rename_i heq
        injection h with he
        subst he
        exact DialRequest.step_ne_oob_dr heq
      · rename_i j m2 heq
        have hlt := DialRequest.unmarshalStep_lt_dr heq
        exact ih dAtA j m2 (by omega) h
    · split at h
      · injection h with he
        exact DErr.noConfusion he
      · exact Except.noConfusion h

theorem DialRequest.unmarshal_ne_oob_dr {m dAtA} : DialRequest.Unmarshal m dAtA ≠ .error .oob :=
  DialRequest.loop_ne_oob_aux_dr dAtA.length dAtA 0 m (by omega)

theorem Data.step_ne_oob_data {dAtA iNdEx m} :
    Data.unmarshalStep dAtA iNdEx m ≠ .error .oob := by
  intro h
  unfold Data.unmarshalStep at h
  dsimp only at h
  rcases hr0 : readVarint dAtA iNdEx 0 0 with e0 | ⟨wire, i1⟩ <;> rw [hr0] at h <;>
    dsimp only at h
  · injection h with he
    subst he
    exact readVarint_ne_oob hr0
  rcases hsk : skipTunnel (List.drop iNdEx dAtA) with e2 | sk <;> rw [hsk] at h <;>
    rcases hr1 : readVarint dAtA i1 0 0 with e1 | ⟨len1, i2⟩ <;> rw [hr1] at h <;>
    dsimp only at h
  all_goals repeat' split at h
  all_goals try exact Except.noConfusion h
  all_goals injection h with he
  all_goals try exact DErr.noConfusion he
  all_goals subst he
  all_goals first
    | exact readVarint_ne_oob hr1
    | exact skipTunnel_ne_oob hsk

theorem Data.loop_ne_oob_aux_data :
    ∀ fuel dAtA iNdEx m, dAtA.length - iNdEx ≤ fuel →
      Data.unmarshalLoop dAtA iNdEx m ≠ .error .oob := by
  intro fuel
  induction fuel with
  | zero =>
    intro dAtA i m hf h
    unfold Data.unmarshalLoop at h
    rw [dif_neg (by omega)] at h
    split at h
    · injection h with he
      exact DErr.noConfusion he
    · exact Except.noConfusion h
  | succ fuel ih =>
    intro dAtA i m hf h
    unfold Data.unmarshalLoop at h
    split at h
    · split at h
      · rename_i heq
        injection h with he
        subst he
        exact Data.step_ne_oob_data heq
      · rename_i j m2 heq
        have hlt := Data.unmarshalStep_lt_data heq
        exact ih dAtA j m2 (by omega) h
    · split at h
      · injection h with he
        exact DErr.noConfusion he
      · exact Except.noConfusion h

theorem Data.unmarshal_ne_oob_data {m dAtA} : Data.Unmarshal m dAtA ≠ .error .oob :=
  Data.loop_ne_oob_aux_data dAtA.length dAtA 0 m (by omega)

set_option maxHeartbeats 1600000 in
theorem Frame.step_ne_oob_frame {dAtA iNdEx m} :
    Frame.unmarshalStep dAtA iNdEx m ≠ .error .oob := by
  intro h
  unfold Frame.unmarshalStep at h
  dsimp only at h
  rcases hr0 : readVarint dAtA iNdEx 0 0 with e0 | ⟨wire, i1⟩ <;> rw [hr0] at h <;>
    dsimp only at h
  · injection h with he
    subst he
    exact readVarint_ne_oob hr0
  rcases hsk : skipTunnel (List.drop iNdEx dAtA) with e2 | sk <;> rw [hsk] at h <;>
    rcases hr1 : readVarint dAtA i1 0 0 with e1 | ⟨len1, i2⟩ <;> rw [hr1] at h <;>
    dsimp only at h
  all_goals try (
    rcases hdr : DialRequest.Unmarshal
        { ServerID := [], ConnType := [], To := none, XXX_unrecognized := [] }
        (List.take len1 (List.drop i2 dAtA)) with e3 | dv <;>
      rw [hdr] at h <;> dsimp only at h <;>
    rcases hdd : Data.Unmarshal { Bytes := [], XXX_unrecognized := [] }
        (List.take len1 (List.drop i2 dAtA)) with e4 | ddv <;>
      rw [hdd] at h <;> dsimp only at h)
  all_goals repeat' split at h
  all_goals try exact Except.noConfusion h
  all_goals injection h with he
  all_goals try exact DErr.noConfusion he
  all_goals subst he
  all_goals first
    | exact readVarint_ne_oob hr1
    | exact skipTunnel_ne_oob hsk
    | exact DialRequest.unmarshal_ne_oob_dr hdr
    | exact Data.unmarshal_ne_oob_data hdd

theorem Frame.loop_ne_oob_aux_frame :
    ∀ fuel dAtA iNdEx m, dAtA.length - iNdEx ≤ fuel →
      Frame.unmarshalLoop dAtA iNdEx m ≠ .error .oob := by
  intro fuel
  induction fuel with
  | zero =>
    intro dAtA i m hf h
    unfold Frame.unmarshalLoop at h
    rw [dif_neg (by omega)] at h
    split at h
    · injection h with he
      exact DErr.noConfusion he
    · exact Except.noConfusion h
  | succ fuel ih =>
    intro dAtA i m hf h
    unfold Frame.unmarshalLoop at h
    split at h
    · split at h
      · rename_i heq
        injection h with he
        subst he
        exact Frame.step_ne_oob_frame heq
      · rename_i j m2 heq
        have hlt := Frame.unmarshalStep_lt_frame heq
        exact ih dAtA j m2 (by omega) h
    · split at h
      · injection h with he
        exact DErr.noConfusion he
      · exact Except.noConfusion h

theorem Frame.unmarshal_ne_oob_frame {m dAtA} : Frame.Unmarshal m dAtA ≠ .error .oob :=
  Frame.loop_ne_oob_aux_frame dAtA.length dAtA 0 m (by omega)

/-! The gRPC surface of the generated file: the service descriptor and the
message typing of the stream wrappers. -/

/-- The protobuf message types of tunnel.proto, used to record which
message the generated Send and Recv wrappers are typed at. -/
inductive PbMsg where
  | frameMsg
  | dialRequestMsg
  | addrMsg
  | dataMsg
  deriving DecidableEq, Repr

/-- One grpc.StreamDesc entry, together with the request and response
message types of the matching client and server stream interfaces
(TunnelerService_TunnelClient and TunnelerService_TunnelServer declare
Send(*Frame) and Recv() (*Frame, error)). -/
structure StreamDesc where
  StreamName : String
  ServerStreams : Bool
  ClientStreams : Bool
  sendMsg : PbMsg
  recvMsg : PbMsg
  deriving DecidableEq, Repr

/-- A grpc.ServiceDesc: unary methods (by name) and stream descriptors. -/
structure ServiceDesc where
  ServiceName : String
  Methods : List String
  Streams : List StreamDesc
  deriving DecidableEq, Repr

/-- _TunnelerService_serviceDesc: ServiceName "api.TunnelerService",
Methods is the empty []grpc.MethodDesc, and Streams holds exactly the
bidirectional (ServerStreams and ClientStreams both true) stream named
"Tunnel", whose Send and Recv both carry Frame messages. -/
def tunnelerServiceDesc : ServiceDesc :=
  { ServiceName := "api.TunnelerService"
    Methods := []
    Streams := [{ StreamName := "Tunnel"
                  ServerStreams := true
                  ClientStreams := true
                  sendMsg := .frameMsg
                  recvMsg := .frameMsg }] }

/-! Modelled from the spec: the per-stream protocol state machine of
section 4.3 and the responder dispatch of section 4.5 are design-level
components that are not present under src (the visible source is the
generated codec and service stubs), so they are modelled here from the
wording of the design document. -/

/-- Modelled from the spec: the failure taxonomy of section 7. -/
inductive FailReason where
  | malformedFrame
  | protocolViolation
  | dialFailure
  | forwardingError
  deriving DecidableEq, Repr

/-- Modelled from the spec: the states of section 4.3. -/
inductive SessionState where
  | opened
  | awaitingHandshake
  | dialing (req : DialRequest)
  | forwarding
  | closing
  | closed
  | failed (reason : FailReason)
  deriving DecidableEq, Repr

/-- Modelled from the spec: the events one responder session reacts to:
the stream being handed to Accept, the first frame (or its decode
failure), the outcome of the dial, bytes read from the dialed connection,
frames from the initiator, and the ends of either side. -/
inductive SessionEvent where
  | streamAccepted
  | firstFrame (f : Frame)
  | frameDecodeFailed
  | dialSucceeded
  | dialFailed
  | connBytes (chunk : List Nat)
  | peerFrame (f : Frame)
  | peerClosed
  | connClosed
  | connErr
  deriving DecidableEq, Repr

/-- Modelled from the spec: the observable Data traffic of one session, in
both directions: a Data frame sent by the responder, or the payload of a
received Data frame delivered to the dialed connection. -/
inductive SessionOut where
  | sentData (chunk : List Nat)
  | deliveredData (chunk : List Nat)
  deriving DecidableEq, Repr

/-- Modelled from the spec: one transition of the responder session per
sections 4.3 and 4.5.  Accept reads exactly one frame: a DialRequest moves
to Dialing, anything else fails with ProtocolViolation; dial failure moves
to Failed(DialFailure) with nothing sent; Data is exchanged only in
Forwarding and Closing; Failed and Closed are terminal. -/
def respStep : SessionState → SessionEvent → SessionState × List SessionOut
  | .opened, .streamAccepted => (.awaitingHandshake, [])
  | .awaitingHandshake, .firstFrame f =>
    (match f.Message with
     | some (.dialRequest (some r)) => (.dialing r, [])
     | _ => (.failed .protocolViolation, []))
  | .awaitingHandshake, .frameDecodeFailed => (.failed .malformedFrame, [])
  | .dialing _, .dialSucceeded => (.forwarding, [])
  | .dialing _, .dialFailed => (.failed .dialFailure, [])
  | .forwarding, .connBytes c => (.forwarding, [.sentData c])
  | .forwarding, .peerFrame f =>
    (match f.Message with
     | some (.data (some d)) => (.forwarding, [.deliveredData d.Bytes])
     | _ => (.failed .protocolViolation, []))
  | .forwarding, .peerClosed => (.closing, [])
  | .forwarding, .connClosed => (.closing, [])
  | .forwarding, .connErr => (.failed .forwardingError, [])
  | .closing, .connBytes c => (.closing, [.sentData c])
  | .closing, .peerFrame f =>
    (match f.Message with
     | some (.data (some d)) => (.closing, [.deliveredData d.Bytes])
     | _ => (.failed .protocolViolation, []))
  | .closing, .peerClosed => (.closed, [])
  | .closing, .connClosed => (.closed, [])
  | .closing, .connErr => (.failed .forwardingError, [])
  | s, _ => (s, [])

/-- Modelled from the spec: a session run from a given state, accumulating
the Data traffic of both directions. -/
def respRunFrom (s : SessionState) (out : List SessionOut) :
    List SessionEvent → SessionState × List SessionOut
  | [] => (s, out)
  | ev :: evs =>
    let r := respStep s ev
    respRunFrom r.1 (out ++ r.2) evs

/-- Modelled from the spec: a full responder session run from Opened. -/
def respRun (evs : List SessionEvent) : SessionState × List SessionOut :=
  respRunFrom .opened [] evs

/-- The states in which the spec promises no Data traffic has happened:
everything before Forwarding, and the dial-failure terminal state. -/
def preForwarding : SessionState → Bool
  | .opened => true
  | .awaitingHandshake => true
  | .dialing _ => true
  | .failed .dialFailure => true
  | _ => false

theorem respStep_quiet_out (s : SessionState) (ev : SessionEvent)
    (hpre : preForwarding s = true) : (respStep s ev).2 = [] := by
  cases s <;> cases ev <;>
    first
      | rfl
      | (simp only [respStep]
         split <;> rfl)
      | (simp [preForwarding] at hpre)

theorem respStep_quiet_pre (s : SessionState) (ev : SessionEvent)
    (h2 : preForwarding (respStep s ev).1 = true) : preForwarding s = true := by
  cases s with
  | opened => rfl
  | awaitingHandshake => rfl
  | dialing r => rfl
  | failed r =>
    have hstep : respStep (.failed r) ev = (.failed r, []) := by
      cases ev <;> rfl
    rw [hstep] at h2
    exact h2
  | forwarding =>
    exfalso
    cases ev <;> simp only [respStep] at h2 <;> (try split at h2) <;>
      simp [preForwarding] at h2
  | closing =>
    exfalso
    cases ev <;> simp only [respStep] at h2 <;> (try split at h2) <;>
      simp [preForwarding] at h2
  | closed =>
    exfalso
    cases ev <;> simp only [respStep] at h2 <;> simp [preForwarding] at h2

theorem respRunFrom_quiet :
    ∀ evs s out, (preForwarding s = true → out = []) →
      preForwarding (respRunFrom s out evs).1 = true → (respRunFrom s out evs).2 = [] := by
  intro evs
  induction evs with
  | nil =>
    intro s out hinv h
    exact hinv h
  | cons ev evs ih =>
    intro s out hinv h
    rw [respRunFrom] at h ⊢
    refine ih _ _ ?_ h
    intro hpre2
    have hpre1 := respStep_quiet_pre s ev hpre2
    rw [hinv hpre1, respStep_quiet_out s ev hpre1]
    rfl

/-! The claims, each settled by one theorem over the definitions above. -/

/-- C1: for every Frame that carries a payload (either oneof variant, with
no unrecognized bytes at any level) and whose Size is below 2^63 (the Go
int range), Marshal succeeds and Unmarshal of the produced bytes into a
fresh Frame returns exactly the original Frame, field for field and, for
Data, byte for byte. -/
theorem claim_C1 (f : Frame) (hwf : f.carryingWf = true) (hsz : f.Size < 2 ^ 63) :
    ∃ bs, f.Marshal = .ok bs ∧ Frame.decode bs = .ok f :=
  ⟨f.enc, Frame.marshal_eq_frame f, Frame.decode_enc_frame hwf hsz⟩

theorem claim_C1_witness :
    ∃ bs, Frame.Marshal ⟨some (.data (some ⟨[1, 2, 3], []⟩)), []⟩ = .ok bs ∧
      Frame.decode bs = .ok ⟨some (.data (some ⟨[1, 2, 3], []⟩)), []⟩ := by
  refine claim_C1 _ (by decide) ?_
  simp [Frame.Size, Frame_Message.size, Data.Size, sov_small]

/-- C2 (amended): decoding the EMPTY buffer does not fail — Frame.Unmarshal
of zero bytes returns the zero Frame, see claim_C2_counterexample — but
every strictly shorter nonempty prefix of the bytes Marshal produced for a
payload-carrying Frame fails with the io.ErrUnexpectedEOF decode error. -/
theorem claim_C2 {f : Frame} (hwf : f.carryingWf = true) (hsz : f.Size < 2 ^ 63)
    {bs : List Nat} (hbs : f.Marshal = .ok bs) {k : Nat} (hk : 0 < k)
    (hlt : k < bs.length) :
    Frame.decode (bs.take k) = .error .eof := by
  rw [Frame.marshal_eq_frame] at hbs
  injection hbs with h
  subst h
  exact Frame.decode_truncated hwf hsz hk hlt

theorem claim_C2_witness :
    Frame.decode ((Frame.enc ⟨some (.data (some ⟨[1], []⟩)), []⟩).take 2) = .error .eof := by
  refine claim_C2 (by decide) ?_ (Frame.marshal_eq_frame _) (by norm_num) ?_
  · simp [Frame.Size, Frame_Message.size, Data.Size, sov_small]
  · rw [Frame.enc_length_frame]
    simp [Frame.Size, Frame_Message.size, Data.Size, sov_small]

/-- C2, the counterexample to the frozen wording: the empty byte sequence
is NOT a decode error; Frame.Unmarshal accepts it and returns the zero
Frame, because the unmarshal loop ends successfully the moment the index
reaches the end of the buffer. -/
theorem claim_C2_counterexample :
    Frame.decode [] = .ok { Message := none, XXX_unrecognized := [] } :=
  Frame.loop_end_frame

/-- C3 (amended): an unknown top-level field number does NOT make Frame
decoding fail.  A well-formed length-delimited field (single-byte tag t
with wire type 2 and field number at least 3, so neither DialRequest nor
Data) is skipped by skipTunnel and its bytes are preserved verbatim in
XXX_unrecognized, the decode succeeding with no Message. -/
theorem claim_C3 {t : Nat} {p : List Nat}
    (htl : t < 128) (ht2 : t % 8 = 2) (hfn : 3 ≤ t >>> 3)
    (hL : p.length < 2 ^ 63)
    (hp : 1 + sovTunnel p.length + p.length < 2 ^ 63) :
    Frame.decode (t :: (encodeVarintTunnel p.length ++ p)) =
      .ok { Message := none,
            XXX_unrecognized := t :: (encodeVarintTunnel p.length ++ p) } := by
  have hd0 : (t :: (encodeVarintTunnel p.length ++ p)).drop 0 =
      (t :: (encodeVarintTunnel p.length ++ p)) ++ [] := by simp
  have hp0 : 0 + (1 + sovTunnel p.length + p.length) < 2 ^ 63 := by omega
  have hstep := Frame.step_unknown_frame (m := { Message := none, XXX_unrecognized := [] })
    htl ht2 hfn hd0 hL hp0
  have hlen : (t :: (encodeVarintTunnel p.length ++ p)).length =
      1 + sovTunnel p.length + p.length := by
    simp [encodeVarint_length]
    try omega
  have h0lt : 0 < (t :: (encodeVarintTunnel p.length ++ p)).length := by simp
  have hdec : Frame.decode (t :: (encodeVarintTunnel p.length ++ p)) =
      Frame.unmarshalLoop (t :: (encodeVarintTunnel p.length ++ p)) 0
        { Message := none, XXX_unrecognized := [] } := rfl
  rw [hdec, Frame.loop_continue_frame h0lt hstep]
  have hj : 0 + (1 + sovTunnel p.length + p.length) =
      (t :: (encodeVarintTunnel p.length ++ p)).length := by omega
  rw [hj, Frame.loop_end_frame]
  rfl

theorem claim_C3_witness :
    Frame.decode (0x1a :: (encodeVarintTunnel ([] : List Nat).length ++ [])) =
      .ok { Message := none,
            XXX_unrecognized := 0x1a :: (encodeVarintTunnel ([] : List Nat).length ++ []) } := by
  refine claim_C3 (by norm_num) (by norm_num) (by decide) (by norm_num) ?_
  simp [sov_zero]

/-- C3, the counterexample to the frozen wording: the two-byte buffer
holding tag 0x1a (field 3, wire type 2, not a variant of the oneof) and
length 0 does not fail; it decodes to the Frame with no Message and those
two bytes kept in XXX_unrecognized. -/
theorem claim_C3_counterexample :
    Frame.decode [0x1a, 0] = .ok { Message := none, XXX_unrecognized := [0x1a, 0] } := by
  have henc : encodeVarintTunnel ([] : List Nat).length = [0] := by
    rw [List.length_nil]
    exact encodeVarint_small (by norm_num)
  have hd0 : ([0x1a, 0] : List Nat).drop 0 =
      (0x1a :: (encodeVarintTunnel ([] : List Nat).length ++ ([] : List Nat))) ++ [] := by
    rw [henc]
    rfl
  have hp0 : 0 + (1 + sovTunnel ([] : List Nat).length + ([] : List Nat).length) < 2 ^ 63 := by
    simp [sov_zero]
  have hstep := Frame.step_unknown_frame (m := { Message := none, XXX_unrecognized := [] })
    (by norm_num) (by norm_num) (by decide) hd0 (by norm_num) hp0
  have hj : 0 + (1 + sovTunnel ([] : List Nat).length + ([] : List Nat).length) =
      ([0x1a, 0] : List Nat).length := by simp [sov_zero]
  have hdec : Frame.decode [0x1a, 0] =
      Frame.unmarshalLoop [0x1a, 0] 0 { Message := none, XXX_unrecognized := [] } := rfl
  rw [hdec, Frame.loop_continue_frame (by norm_num) hstep, hj, Frame.loop_end_frame]
  rw [henc]
  rfl

/-- C4: a length-delimited field whose declared varint byte count L
exceeds the bytes that remain makes decoding fail, for each unmarshaler:
Frame (both oneof fields, tags 0xa and 0x12), DialRequest, Addr and Data
(their first fields, tag 0xa). -/
theorem claim_C4 {L : Nat} {rest : List Nat} (hL : L < 2 ^ 63) (hr : rest.length < L) :
    (∃ e, Frame.decode (0xa :: (encodeVarintTunnel L ++ rest)) = .error e) ∧
    (∃ e, Frame.decode (0x12 :: (encodeVarintTunnel L ++ rest)) = .error e) ∧
    (∃ e, DialRequest.decode (0xa :: (encodeVarintTunnel L ++ rest)) = .error e) ∧
    (∃ e, Addr.decode (0xa :: (encodeVarintTunnel L ++ rest)) = .error e) ∧
    (∃ e, Data.decode (0xa :: (encodeVarintTunnel L ++ rest)) = .error e) :=
  ⟨Frame.decode_overlong10_frame hL hr, Frame.decode_overlong18 hL hr,
   DialRequest.decode_overlong10_dr hL hr, Addr.decode_overlong10_addr hL hr,
   Data.decode_overlong10_data hL hr⟩

theorem claim_C4_witness :
    (∃ e, Frame.decode (0xa :: (encodeVarintTunnel 1 ++ [])) = .error e) ∧
    (∃ e, Frame.decode (0x12 :: (encodeVarintTunnel 1 ++ [])) = .error e) ∧
    (∃ e, DialRequest.decode (0xa :: (encodeVarintTunnel 1 ++ [])) = .error e) ∧
    (∃ e, Addr.decode (0xa :: (encodeVarintTunnel 1 ++ [])) = .error e) ∧
    (∃ e, Data.decode (0xa :: (encodeVarintTunnel 1 ++ [])) = .error e) :=
  claim_C4 (by norm_num) (by norm_num)

/-- C5: in the modelled responder session (sections 4.3 and 4.5 of the
design), every run that ends in the Failed(DialFailure) state produced no
Data traffic at all: no Data frame was sent to the initiator and no
received payload was delivered to a connection, in either direction. -/
theorem claim_C5 (evs : List SessionEvent)
    (h : (respRun evs).1 = .failed .dialFailure) : (respRun evs).2 = [] := by
  have hpre : preForwarding (respRun evs).1 = true := by rw [h]; rfl
  exact respRunFrom_quiet evs .opened [] (fun _ => rfl) hpre

theorem claim_C5_witness :
    (respRun [SessionEvent.streamAccepted,
        SessionEvent.firstFrame ⟨some (.dialRequest (some ⟨[], [], none, []⟩)), []⟩,
        SessionEvent.dialFailed]).2 = [] :=
  claim_C5 _ (by decide)

/-- C6 (amended): DialRequest.Marshal never reports an error; in
particular an empty ServerID is not rejected — the writer simply omits
every empty field (see claim_C6_counterexample), so encoding succeeds for
every DialRequest value. -/
theorem claim_C6 (m : DialRequest) : ∃ bs, m.Marshal = .ok bs :=
  ⟨m.enc, DialRequest.marshal_eq_dr m⟩

/-- C6, the counterexample to the frozen wording: marshaling the
DialRequest whose ServerID is empty does not fail; it succeeds and
produces the empty byte sequence. -/
theorem claim_C6_counterexample :
    DialRequest.Marshal { ServerID := [], ConnType := [], To := none, XXX_unrecognized := [] } =
      .ok [] := by
  rw [DialRequest.marshal_eq_dr]
  rfl

/-- C7: the service descriptor registers exactly one RPC — the
bidirectional (ClientStreams and ServerStreams both true) stream named
"Tunnel" on service api.TunnelerService, sending and receiving Frame
messages — and its unary method list is empty. -/
theorem claim_C7 :
    tunnelerServiceDesc.ServiceName = "api.TunnelerService" ∧
    tunnelerServiceDesc.Methods = [] ∧
    tunnelerServiceDesc.Streams =
      [{ StreamName := "Tunnel", ServerStreams := true, ClientStreams := true,
         sendMsg := .frameMsg, recvMsg := .frameMsg }] :=
  ⟨rfl, rfl, rfl⟩

/-- C8: a well-formed unknown trailing field is preserved opaquely by
DialRequest and Addr.  A buffer holding a known first field (tag 0xa: the
nonempty ServerID of DialRequest, the nonempty Network of Addr) followed
by an unknown length-delimited field (single-byte tag t, wire type 2,
field number at least 4) decodes successfully, and re-marshaling the
decoded value reproduces the input bytes — the unknown field's bytes
included — exactly. -/
theorem claim_C8 {s : List Nat} {t : Nat} {p : List Nat}
    (hs : 0 < s.length) (hsL : s.length < 2 ^ 63)
    (htl : t < 128) (ht2 : t % 8 = 2) (hfn : 4 ≤ t >>> 3)
    (hL : p.length < 2 ^ 63)
    (hp : (1 + sovTunnel s.length + s.length) + (1 + sovTunnel p.length + p.length) < 2 ^ 63) :
    (∃ m, DialRequest.decode
        (lenField 0xa s ++ (t :: (encodeVarintTunnel p.length ++ p))) = .ok m ∧
      m.Marshal = .ok (lenField 0xa s ++ (t :: (encodeVarintTunnel p.length ++ p)))) ∧
    (∃ m, Addr.decode
        (lenField 0xa s ++ (t :: (encodeVarintTunnel p.length ++ p))) = .ok m ∧
      m.Marshal = .ok (lenField 0xa s ++ (t :: (encodeVarintTunnel p.length ++ p)))) := by
  have hd0 : (lenField 0xa s ++ (t :: (encodeVarintTunnel p.length ++ p))).drop 0 =
      lenField 0xa s ++ (t :: (encodeVarintTunnel p.length ++ p)) := List.drop_zero _
  have hlenU : (t :: (encodeVarintTunnel p.length ++ p)).length =
      1 + sovTunnel p.length + p.length := by
    simp [encodeVarint_length]
    try omega
  have hlenF : (lenField 0xa s).length = 1 + sovTunnel s.length + s.length :=
    lenField_length _ _
  have hBlen : (lenField 0xa s ++ (t :: (encodeVarintTunnel p.length ++ p))).length =
      (1 + sovTunnel s.length + s.length) + (1 + sovTunnel p.length + p.length) := by
    rw [List.length_append, hlenF, hlenU]
  have hp1 : 0 + 1 + sovTunnel s.length + s.length < 2 ^ 63 := by omega
  have hd1 : (lenField 0xa s ++ (t :: (encodeVarintTunnel p.length ++ p))).drop
      (0 + 1 + sovTunnel s.length + s.length) =
      (t :: (encodeVarintTunnel p.length ++ p)) ++ [] := by
    rw [List.append_nil]
    have h := drop_append_shift hd0
    rw [hlenF] at h
    rw [show 0 + 1 + sovTunnel s.length + s.length =
      0 + (1 + sovTunnel s.length + s.length) from by omega]
    exact h
  have hp2 : (0 + 1 + sovTunnel s.length + s.length) +
      (1 + sovTunnel p.length + p.length) < 2 ^ 63 := by omega
  have h0lt : 0 < (lenField 0xa s ++ (t :: (encodeVarintTunnel p.length ++ p))).length := by
    simp [lenField]
  have hj1lt : 0 + 1 + sovTunnel s.length + s.length <
      (lenField 0xa s ++ (t :: (encodeVarintTunnel p.length ++ p))).length := by omega
  have hj2 : (0 + 1 + sovTunnel s.length + s.length) +
      (1 + sovTunnel p.length + p.length) =
      (lenField 0xa s ++ (t :: (encodeVarintTunnel p.length ++ p))).length := by omega
  constructor
  · have h1 := DialRequest.step_serverID
      (m := { ServerID := [], ConnType := [], To := none, XXX_unrecognized := [] })
      hd0 hsL hp1
    have h2 := DialRequest.step_unknown_dr
      (m := { ServerID := s, ConnType := [], To := none, XXX_unrecognized := [] })
      htl ht2 hfn hd1 hL hp2
    refine ⟨⟨s, [], none, t :: (encodeVarintTunnel p.length ++ p)⟩, ?_, ?_⟩
    · have hdec : DialRequest.decode
          (lenField 0xa s ++ (t :: (encodeVarintTunnel p.length ++ p))) =
          DialRequest.unmarshalLoop
            (lenField 0xa s ++ (t :: (encodeVarintTunnel p.length ++ p))) 0
            { ServerID := [], ConnType := [], To := none, XXX_unrecognized := [] } := rfl
      rw [hdec, DialRequest.loop_continue_dr h0lt h1, DialRequest.loop_continue_dr hj1lt h2,
        hj2, DialRequest.loop_end_dr]
      rfl
    · rw [DialRequest.marshal_eq_dr]
      simp [DialRequest.enc, optAddrField, hs]
  · have h1 := Addr.step_network
      (m := { Network := [], Address := [], XXX_unrecognized := [] })
      hd0 hsL hp1
    have h2 := Addr.step_unknown_addr
      (m := { Network := s, Address := [], XXX_unrecognized := [] })
      htl ht2 (by omega) hd1 hL hp2
    refine ⟨⟨s, [], t :: (encodeVarintTunnel p.length ++ p)⟩, ?_, ?_⟩
    · have hdec : Addr.decode
          (lenField 0xa s ++ (t :: (encodeVarintTunnel p.length ++ p))) =
          Addr.unmarshalLoop
            (lenField 0xa s ++ (t :: (encodeVarintTunnel p.length ++ p))) 0
            { Network := [], Address := [], XXX_unrecognized := [] } := rfl
      rw [hdec, Addr.loop_continue_addr h0lt h1, Addr.loop_continue_addr hj1lt h2,
        hj2, Addr.loop_end_addr]
      rfl
    · rw [Addr.marshal_eq_addr]
      simp [Addr.enc, hs]

theorem claim_C8_witness :
    (∃ m, DialRequest.decode
        (lenField 0xa [1] ++ (0x22 :: (encodeVarintTunnel ([] : List Nat).length ++ []))) =
          .ok m ∧
      DialRequest.Marshal m =
        .ok (lenField 0xa [1] ++ (0x22 :: (encodeVarintTunnel ([] : List Nat).length ++ [])))) ∧
    (∃ m, Addr.decode
        (lenField 0xa [1] ++ (0x22 :: (encodeVarintTunnel ([] : List Nat).length ++ []))) =
          .ok m ∧
      Addr.Marshal m =
        .ok (lenField 0xa [1] ++ (0x22 :: (encodeVarintTunnel ([] : List Nat).length ++ [])))) := by
  refine claim_C8 (by norm_num) (by norm_num) (by norm_num) (by norm_num) (by decide)
    (by norm_num) ?_
  simp [sov_small]

/-- C9: on every input byte sequence and every starting value, each
unmarshaler and skipTunnel returns a value of Except — they are total Lean
functions, so they terminate — and never returns the out-of-bounds marker
DErr.oob, the error our embedding reserves for the index accesses the Go
code performs without a preceding bounds check: decoding never reads past
the end of the input. -/
theorem claim_C9 (dAtA : List Nat) (f : Frame) (d : DialRequest) (a : Addr) (da : Data) :
    Frame.Unmarshal f dAtA ≠ .error .oob ∧
    DialRequest.Unmarshal d dAtA ≠ .error .oob ∧
    Addr.Unmarshal a dAtA ≠ .error .oob ∧
    Data.Unmarshal da dAtA ≠ .error .oob ∧
    skipTunnel dAtA ≠ .error .oob :=
  ⟨Frame.unmarshal_ne_oob_frame, DialRequest.unmarshal_ne_oob_dr, Addr.unmarshal_ne_oob_addr,
   Data.unmarshal_ne_oob_data, skipTunnel_ne_oob⟩

/-- C10: Marshal succeeds on every Frame, DialRequest, Addr and Data value
and produces exactly Size-many bytes, and encodeVarintTunnel writes
exactly sovTunnel v bytes for every v. -/
theorem claim_C10 (v : Nat) (f : Frame) (d : DialRequest) (a : Addr) (da : Data) :
    (encodeVarintTunnel v).length = sovTunnel v ∧
    (∃ bs, f.Marshal = .ok bs ∧ bs.length = f.Size) ∧
    (∃ bs, d.Marshal = .ok bs ∧ bs.length = d.Size) ∧
    (∃ bs, a.Marshal = .ok bs ∧ bs.length = a.Size) ∧
    (∃ bs, da.Marshal = .ok bs ∧ bs.length = da.Size) :=
  ⟨encodeVarint_length v,
   ⟨f.enc, Frame.marshal_eq_frame f, Frame.enc_length_frame f⟩,
   ⟨d.enc, DialRequest.marshal_eq_dr d, DialRequest.enc_length_dr d⟩,
   ⟨a.enc, Addr.marshal_eq_addr a, Addr.enc_length_addr a⟩,
   ⟨da.enc, Data.marshal_eq_data da, Data.enc_length_data da⟩⟩

end Tunnel
